import Mathlib

/-!
Verification of the oc-ralph orchestration engine against its specification.

Each component is shallowly embedded from the JavaScript source:
pure computations become Lean functions, stateful code becomes explicit
state passing, and fallible code returns Except/Option.  Strings are
modelled at the level of their character lists where the JavaScript code
manipulates them by index (indexOf / substring), matching the semantics
of those operations.
-/

/-! ## Character-list string utilities

JavaScript String.prototype.indexOf / substring / includes, modelled on
the character list of a string.  findSub returns the index of the first
occurrence of a pattern, none when absent (JS returns -1).
-/

/-- Index of the first occurrence of pat in s, as in JS indexOf. -/
def findSub (pat : List Char) : List Char → Option Nat
  | [] => if pat.isEmpty then some 0 else none
  | c :: t => if pat.isPrefixOf (c :: t) then some 0 else (findSub pat t).map (· + 1)

/-- JS String.prototype.includes on character lists. -/
def containsSub (s pat : List Char) : Bool := (findSub pat s).isSome

/-- Lowercasing a character list (JS toLowerCase, restricted to the
character-by-character case mapping, which is what the retry patterns need). -/
def lowerChars (s : List Char) : List Char := s.map Char.toLower

/-- Lexicographic comparison of character lists by code point, the order
produced by the id comparator used for batch sorting. -/
def lexLe : List Char → List Char → Bool
  | [], _ => true
  | _ :: _, [] => false
  | x :: xs, y :: ys =>
    if x.toNat < y.toNat then true
    else if y.toNat < x.toNat then false
    else lexLe xs ys

theorem lexLe_total : ∀ a b, lexLe a b = true ∨ lexLe b a = true := by
  intro a
  induction a with
  | nil => intro b; left; rfl
  | cons x xs ih =>
    intro b
    cases b with
    | nil => right; rfl
    | cons y ys =>
      by_cases hxy : x.toNat < y.toNat
      · left; simp [lexLe, hxy]
      · by_cases hyx : y.toNat < x.toNat
        · right; simp [lexLe, hyx]
        · cases ih ys with
          | inl h => left; simp [lexLe, hxy, hyx, h]
          | inr h => right; simp [lexLe, hxy, hyx, h]

theorem lexLe_trans : ∀ a b c, lexLe a b = true → lexLe b c = true → lexLe a c = true := by
  intro a
  induction a with
  | nil => intro b c _ _; rfl
  | cons x xs ih =>
    intro b c hab hbc
    cases b with
    | nil => simp [lexLe] at hab
    | cons y ys =>
      cases c with
      | nil => simp [lexLe] at hbc
      | cons z zs =>
        simp only [lexLe] at hab hbc ⊢
        by_cases hxy : x.toNat < y.toNat
        · by_cases hyz : y.toNat < z.toNat
          · simp [Nat.lt_trans hxy hyz]
          · by_cases hzy : z.toNat < y.toNat
            · simp [lexLe, hyz, hzy] at hbc
            · have : y.toNat = z.toNat := Nat.le_antisymm (Nat.le_of_not_lt hzy) (Nat.le_of_not_lt hyz)
              simp [this ▸ hxy]
        · by_cases hyx : y.toNat < x.toNat
          · simp [hxy, hyx] at hab
          · have hxey : x.toNat = y.toNat := Nat.le_antisymm (Nat.le_of_not_lt hyx) (Nat.le_of_not_lt hxy)
            by_cases hyz : y.toNat < z.toNat
            · simp [hxey ▸ hyz]
            · by_cases hzy : z.toNat < y.toNat
              · simp [hyz, hzy] at hbc
              · simp only [hxy, hyx, if_neg, ite_false] at hab
                simp only [hyz, hzy, if_neg, ite_false] at hbc
                have hxz : ¬ x.toNat < z.toNat := hxey ▸ hyz
                have hzx : ¬ z.toNat < x.toNat := hxey ▸ hzy
                simp [hxz, hzx, ih ys zs hab hbc]

/-! ## State Store (StateManager)

Embedded from StateManager: getCurrentState scans a fixed priority list of
state labels and returns the first present on the ticket; transitionTo
removes the current state label (when any) and adds the new one; canResume
checks membership of the current state in the resumable list.  The label
set of a ticket is modelled as a Finset of label strings.
-/

namespace StateMgr

/-- The state labels recognised by getCurrentState, in its scan order. -/
def stateLabels : List String :=
  [ "oc-ralph:planning",
    "oc-ralph:awaiting-approval",
    "oc-ralph:approved",
    "oc-ralph:implementing",
    "oc-ralph:testing",
    "oc-ralph:completing",
    "oc-ralph:completed",
    "oc-ralph:pr-created",
    "oc-ralph:failed",
    "oc-ralph:rejected",
    "oc-ralph:paused" ]

/-- The resumable states checked by canResume. -/
def resumableStates : List String :=
  [ "oc-ralph:planning",
    "oc-ralph:awaiting-approval",
    "oc-ralph:approved",
    "oc-ralph:implementing",
    "oc-ralph:testing",
    "oc-ralph:completing" ]

/-- Modelled from the spec: the ten-state label vocabulary of section 6
(State: planning, awaiting-approval, approved, rejected, implementing,
testing, completing, completed, pr-created, failed). -/
def specStateVocabulary : List String :=
  [ "oc-ralph:planning",
    "oc-ralph:awaiting-approval",
    "oc-ralph:approved",
    "oc-ralph:rejected",
    "oc-ralph:implementing",
    "oc-ralph:testing",
    "oc-ralph:completing",
    "oc-ralph:completed",
    "oc-ralph:pr-created",
    "oc-ralph:failed" ]

/-- getCurrentState: first state label present on the ticket, none otherwise. -/
def getCurrentState (labels : Finset String) : Option String :=
  stateLabels.find? (fun s => decide (s ∈ labels))

/-- transitionTo: remove the current state label if one exists, then add the new one. -/
def transitionTo (labels : Finset String) (newState : String) : Finset String :=
  match getCurrentState labels with
  | some current => insert newState (labels.erase current)
  | none => insert newState labels

/-- canResume: the current state is in the resumable list (false when no state label). -/
def canResume (labels : Finset String) : Bool :=
  match getCurrentState labels with
  | some s => resumableStates.contains s
  | none => false

/-- Number of state labels carried by the ticket. -/
def stateLabelCount (labels : Finset String) : Nat :=
  (stateLabels.filter (fun s => decide (s ∈ labels))).length

theorem mem_eq_of_length_le_one {α : Type} {a b : α} {l : List α}
    (ha : a ∈ l) (hb : b ∈ l) (h : l.length ≤ 1) : a = b := by
  cases l with
  | nil => cases ha
  | cons x t =>
    cases t with
    | nil =>
      simp only [List.mem_singleton] at ha hb
      rw [ha, hb]
    | cons y u => simp at h

theorem nodup_stateLabels : stateLabels.Nodup := by decide

theorem count_le_one_of_all_eq {L : Finset String} {a : String}
    (h : ∀ s ∈ stateLabels, s ∈ L → s = a) : stateLabelCount L ≤ 1 := by
  unfold stateLabelCount
  have hsub : ∀ s ∈ stateLabels.filter (fun s => decide (s ∈ L)), s = a := by
    intro s hs
    rw [List.mem_filter] at hs
    exact h s hs.1 (by simpa using hs.2)
  have hnd : (stateLabels.filter (fun s => decide (s ∈ L))).Nodup :=
    nodup_stateLabels.filter _
  cases hfl : stateLabels.filter (fun s => decide (s ∈ L)) with
  | nil => simp
  | cons x t =>
    cases t with
    | nil => simp
    | cons y u =>
      exfalso
      have hx : x = a := hsub x (by rw [hfl]; exact List.mem_cons_self _ _)
      have hy : y = a := hsub y (by rw [hfl]; exact List.mem_cons_of_mem _ (List.mem_cons_self _ _))
      rw [hfl, List.nodup_cons] at hnd
      exact hnd.1 (by rw [hx.trans hy.symm]; exact List.mem_cons_self _ _)

theorem transitionTo_step {L : Finset String} (h : stateLabelCount L ≤ 1) (s : String) :
    stateLabelCount (transitionTo L s) ≤ 1 := by
  unfold transitionTo
  cases hc : getCurrentState L with
  | none =>
    apply count_le_one_of_all_eq (a := s)
    intro x hx hmem
    rcases Finset.mem_insert.mp hmem with h1 | h1
    · exact h1
    · exfalso
      have := List.find?_eq_none.mp hc x hx
      simp at this
      exact this h1
  | some current =>
    apply count_le_one_of_all_eq (a := s)
    intro x hx hmem
    rcases Finset.mem_insert.mp hmem with h1 | h1
    · exact h1
    · exfalso
      have hxL : x ∈ L := Finset.mem_of_mem_erase h1
      have hxne : x ≠ current := Finset.ne_of_mem_erase h1
      have hcs : current ∈ stateLabels := List.mem_of_find?_eq_some hc
      have hcL : current ∈ L := by
        have := List.find?_some hc
        simpa using this
      have hxf : x ∈ stateLabels.filter (fun s => decide (s ∈ L)) :=
        List.mem_filter.mpr ⟨hx, by simpa using hxL⟩
      have hcf : current ∈ stateLabels.filter (fun s => decide (s ∈ L)) :=
        List.mem_filter.mpr ⟨hcs, by simpa using hcL⟩
      exact hxne (mem_eq_of_length_le_one hxf hcf h)

end StateMgr

/-- Claim C6, counterexample: starting from a label set that already carries the
two state labels planning and testing, a single transitionTo call leaves the
ticket with two state labels (testing plus the new one), so the claim as stated
over every initial label set is false. -/
theorem c6_counterexample :
    StateMgr.stateLabelCount
      (StateMgr.transitionTo ({"oc-ralph:planning", "oc-ralph:testing"} : Finset String)
        "oc-ralph:approved") = 2 := by decide

/-- Claim C6, amended: for every initial label set carrying at most one state
label, every sequence of transitionTo calls leaves the ticket with at most one
state label after each call (the intermediate states are instances of the
quantifier over call sequences). -/
theorem c6_transitionTo_at_most_one_state_label
    (L0 : Finset String) (h : StateMgr.stateLabelCount L0 ≤ 1) (calls : List String) :
    StateMgr.stateLabelCount (calls.foldl StateMgr.transitionTo L0) ≤ 1 := by
  induction calls generalizing L0 with
  | nil => simpa using h
  | cons c t ih =>
    simp only [List.foldl_cons]
    exact ih _ (StateMgr.transitionTo_step h c)

/-- Witness for the amended claim C6 at a concrete ticket. -/
theorem c6_witness :
    StateMgr.stateLabelCount ({"oc-ralph:planning"} : Finset String) ≤ 1 ∧
    StateMgr.stateLabelCount
      ((["oc-ralph:approved", "oc-ralph:implementing"]).foldl StateMgr.transitionTo
        ({"oc-ralph:planning"} : Finset String)) ≤ 1 :=
  ⟨by decide, c6_transitionTo_at_most_one_state_label _ (by decide) _⟩

/-- Claim C9: the state store recognises the eleventh state label paused, which
is outside the ten-state vocabulary of the spec; getCurrentState returns it when
present (shown at a concrete ticket), and every ticket whose current state is
paused refuses resume. -/
theorem c9_paused_state :
    StateMgr.getCurrentState ({"oc-ralph:paused"} : Finset String) = some "oc-ralph:paused" ∧
    (∀ L : Finset String, StateMgr.getCurrentState L = some "oc-ralph:paused" →
      StateMgr.canResume L = false) ∧
    "oc-ralph:paused" ∈ StateMgr.stateLabels ∧
    "oc-ralph:paused" ∉ StateMgr.specStateVocabulary := by
  refine ⟨by decide, ?_, by decide, by decide⟩
  intro L hL
  unfold StateMgr.canResume
  rw [hL]
  decide

/-- Witness for claim C9 at a concrete ticket carrying only the paused label. -/
theorem c9_witness :
    StateMgr.canResume ({"oc-ralph:paused"} : Finset String) = false :=
  c9_paused_state.2.1 _ c9_paused_state.1

/-! ## Retry/Backoff (RetryManager)

Embedded from RetryManager: executeWithRetry runs attempts 1..maxAttempts,
short-circuits on non-retryable errors, sleeps calculateBackoff(attempt)
between a failed attempt and the next, and wraps the last error message on
exhaustion.  The loop is modelled with the remaining attempt budget as fuel
(fuel = maxAttempts + 1 - attempt), the slept delays as an accumulated list
(delays[i] is the sleep before attempt i + 2), and the JS null-deref that
occurs when maxAttempts < 1 as the distinguished outcome nullFailure.
-/

structure RetryConfig where
  maxAttempts : Nat
  initialDelayMs : Nat
  backoffMultiplier : Nat
deriving DecidableEq, Repr

/-- Errors carry a message; the shouldRetry field records the flag that
callers such as AgentExecutor set on error objects. -/
structure AgentError where
  message : String
  shouldRetry : Bool
deriving DecidableEq, Repr

def nonRetryablePatterns : List String :=
  ["rate limit", "quota exceeded", "authentication", "not found", "permission denied"]

/-- isRetryable: false when the lowercased message includes one of the
non-retryable patterns; the shouldRetry flag is not consulted. -/
def isRetryable (e : AgentError) : Bool :=
  nonRetryablePatterns.all (fun p => !(containsSub (lowerChars e.message.data) p.data))

/-- calculateBackoff: initialDelayMs times backoffMultiplier to the (attempt - 1). -/
def calculateBackoff (cfg : RetryConfig) (attempt : Nat) : Nat :=
  cfg.initialDelayMs * cfg.backoffMultiplier ^ (attempt - 1)

/-- The exhaustion wrapper message. -/
def wrapExhausted (maxAttempts : Nat) (msg : String) : String :=
  "Failed after " ++ toString maxAttempts ++ " attempts: " ++ msg

inductive RetryResult (α : Type) where
  | success (value : α) (attempts : Nat) (delays : List Nat)
  | raised (message : String) (attempts : Nat) (delays : List Nat)
  | exhausted (message : String) (delays : List Nat)
  | nullFailure (delays : List Nat)
deriving DecidableEq, Repr

/-- The attempt loop of executeWithRetry.  fuel counts the attempts still
allowed including the current one; fuel = 0 is the loop exit, after which
the last error is wrapped (nullFailure when no attempt ever ran). -/
def retryLoop (cfg : RetryConfig) {α : Type} (fn : Nat → Except AgentError α) :
    Nat → Nat → Option String → List Nat → RetryResult α
  | _, 0, lastErr, delays =>
    match lastErr with
    | some m => .exhausted (wrapExhausted cfg.maxAttempts m) delays
    | none => .nullFailure delays
  | attempt, fuel + 1, _, delays =>
    match fn attempt with
    | .ok v => .success v attempt delays
    | .error e =>
      if isRetryable e then
        if fuel = 0 then .exhausted (wrapExhausted cfg.maxAttempts e.message) delays
        else retryLoop cfg fn (attempt + 1) fuel (some e.message)
          (delays ++ [calculateBackoff cfg attempt])
      else .raised e.message attempt delays

def executeWithRetry (cfg : RetryConfig) {α : Type} (fn : Nat → Except AgentError α) :
    RetryResult α :=
  retryLoop cfg fn 1 cfg.maxAttempts none []

theorem retryLoop_success (cfg : RetryConfig) {α : Type} (fn : Nat → Except AgentError α)
    (v : α) :
    ∀ (d attempt fuel : Nat) (le : Option String) (ds : List Nat),
      d < fuel →
      (∀ j, attempt ≤ j → j < attempt + d → ∃ e, fn j = .error e ∧ isRetryable e = true) →
      fn (attempt + d) = .ok v →
      retryLoop cfg fn attempt fuel le ds =
        .success v (attempt + d)
          (ds ++ (List.range d).map (fun i => calculateBackoff cfg (attempt + i))) := by
  intro d
  induction d with
  | zero =>
    intro attempt fuel le ds hfuel _ hsucc
    obtain ⟨f, rfl⟩ : ∃ f, fuel = f + 1 := ⟨fuel - 1, by omega⟩
    rw [Nat.add_zero] at hsucc
    simp [retryLoop, hsucc]
  | succ d ih =>
    intro attempt fuel le ds hfuel hfail hsucc
    obtain ⟨f, rfl⟩ : ∃ f, fuel = f + 1 := ⟨fuel - 1, by omega⟩
    have hf : f ≠ 0 := by omega
    obtain ⟨e, he, hre⟩ := hfail attempt (Nat.le_refl _) (by omega)
    have step := ih (attempt + 1) f (some e.message) (ds ++ [calculateBackoff cfg attempt])
      (by omega)
      (fun j hj1 hj2 => hfail j (by omega) (by omega))
      (by rw [show attempt + 1 + d = attempt + (d + 1) by omega]; exact hsucc)
    simp only [retryLoop, he, hre, if_true, hf, if_false, ite_false] at *
    rw [step]
    rw [show attempt + 1 + d = attempt + (d + 1) by omega]
    congr 1
    rw [List.append_assoc]
    congr 1
    rw [List.range_succ_eq_map]
    simp only [List.map_cons, List.map_map, Nat.add_zero, List.singleton_append]
    congr 1
    apply List.map_congr_left
    intro i _
    simp only [Function.comp]
    congr 1
    omega

theorem retryLoop_exhaust (cfg : RetryConfig) {α : Type} (fn : Nat → Except AgentError α)
    (eM : AgentError) :
    ∀ (d attempt : Nat) (le : Option String) (ds : List Nat),
      (∀ j, attempt ≤ j → j ≤ attempt + d → ∃ e, fn j = .error e ∧ isRetryable e = true) →
      fn (attempt + d) = .error eM →
      retryLoop cfg fn attempt (d + 1) le ds =
        .exhausted (wrapExhausted cfg.maxAttempts eM.message)
          (ds ++ (List.range d).map (fun i => calculateBackoff cfg (attempt + i))) := by
  intro d
  induction d with
  | zero =>
    intro attempt le ds hfail hlast
    rw [Nat.add_zero] at hlast
    obtain ⟨e, he, hre⟩ := hfail attempt (Nat.le_refl _) (Nat.le_refl _)
    rw [hlast] at he
    cases he
    simp [retryLoop, hlast, hre]
  | succ d ih =>
    intro attempt le ds hfail hlast
    obtain ⟨e, he, hre⟩ := hfail attempt (Nat.le_refl _) (by omega)
    have step := ih (attempt + 1) (some e.message) (ds ++ [calculateBackoff cfg attempt])
      (fun j hj1 hj2 => hfail j (by omega) (by omega))
      (by rw [show attempt + 1 + d = attempt + (d + 1) by omega]; exact hlast)
    simp only [retryLoop, he, hre, if_true, Nat.succ_ne_zero, ite_false, if_false] at step ⊢
    rw [step]
    congr 1
    rw [List.append_assoc]
    congr 1
    rw [List.range_succ_eq_map]
    simp only [List.map_cons, List.map_map, Nat.add_zero, List.singleton_append]
    congr 1
    apply List.map_congr_left
    intro i _
    simp only [Function.comp]
    congr 1
    omega

/-- Claim C2: with maxAttempts M at least 1, a thunk failing retryably on
attempts 1..k-1 and succeeding on attempt k at most M returns the value after
exactly k attempts with the slept delays being initialDelay times
multiplier^i for i = 0..k-2 (the delay before attempt j is entry j-2 of that
list, initialDelay times multiplier^(j-2)); and a thunk failing retryably on
all M attempts yields the exhaustion error wrapping the last error message. -/
theorem c2_executeWithRetry :
    (∀ (cfg : RetryConfig) (fn : Nat → Except AgentError Nat) (v : Nat) (k : Nat),
      1 ≤ k → k ≤ cfg.maxAttempts →
      (∀ j, 1 ≤ j → j < k → ∃ e, fn j = .error e ∧ isRetryable e = true) →
      fn k = .ok v →
      executeWithRetry cfg fn =
        .success v k ((List.range (k - 1)).map
          (fun i => cfg.initialDelayMs * cfg.backoffMultiplier ^ i))) ∧
    (∀ (cfg : RetryConfig) (fn : Nat → Except AgentError Nat) (eM : AgentError),
      1 ≤ cfg.maxAttempts →
      (∀ j, 1 ≤ j → j ≤ cfg.maxAttempts → ∃ e, fn j = .error e ∧ isRetryable e = true) →
      fn cfg.maxAttempts = .error eM →
      executeWithRetry cfg fn =
        .exhausted (wrapExhausted cfg.maxAttempts eM.message)
          ((List.range (cfg.maxAttempts - 1)).map
            (fun i => cfg.initialDelayMs * cfg.backoffMultiplier ^ i))) := by
  constructor
  · intro cfg fn v k hk1 hkM hfail hsucc
    have main := retryLoop_success cfg fn v (k - 1) 1 cfg.maxAttempts none []
      (by omega)
      (fun j hj1 hj2 => hfail j hj1 (by omega))
      (by rw [show 1 + (k - 1) = k by omega]; exact hsucc)
    unfold executeWithRetry
    rw [main, show 1 + (k - 1) = k by omega]
    congr 1
    rw [List.nil_append]
    apply List.map_congr_left
    intro i _
    unfold calculateBackoff
    rw [show 1 + i - 1 = i by omega]
  · intro cfg fn eM hM hfail hlast
    have main := retryLoop_exhaust cfg fn eM (cfg.maxAttempts - 1) 1 none []
      (fun j hj1 hj2 => hfail j hj1 (by omega))
      (by rw [show 1 + (cfg.maxAttempts - 1) = cfg.maxAttempts by omega]; exact hlast)
    rw [show cfg.maxAttempts - 1 + 1 = cfg.maxAttempts by omega] at main
    unfold executeWithRetry
    rw [main]
    congr 1
    rw [List.nil_append]
    apply List.map_congr_left
    intro i _
    unfold calculateBackoff
    rw [show 1 + i - 1 = i by omega]

/-- Witness for claim C2: success on attempt 2 of 3 after one retryable
failure sleeps 100 ms; three retryable failures exhaust with the wrapped
message and sleeps 100 ms and 200 ms. -/
theorem c2_witness :
    executeWithRetry ⟨3, 100, 2⟩
      (fun j => if j < 2 then (.error ⟨"boom", true⟩ : Except AgentError Nat) else .ok 42) =
      .success 42 2 [100] ∧
    executeWithRetry ⟨3, 100, 2⟩
      (fun _ => (.error ⟨"boom", true⟩ : Except AgentError Nat)) =
      .exhausted "Failed after 3 attempts: boom" [100, 200] := by
  constructor
  · have h := c2_executeWithRetry.1 ⟨3, 100, 2⟩
      (fun j => if j < 2 then (.error ⟨"boom", true⟩ : Except AgentError Nat) else .ok 42) 42 2
      (by decide) (by decide)
      (by intro j hj1 hj2
          refine ⟨⟨"boom", true⟩, ?_, by decide⟩
          have hj : j = 1 := by omega
          rw [hj]
          rfl)
      rfl
    rw [h]
    decide
  · have h := c2_executeWithRetry.2 ⟨3, 100, 2⟩
      (fun _ => (.error ⟨"boom", true⟩ : Except AgentError Nat)) ⟨"boom", true⟩
      (by decide)
      (fun j hj1 hj2 => ⟨⟨"boom", true⟩, rfl, by decide⟩)
      rfl
    rw [h]
    decide

/-- Claim C8, counterexample: an error whose shouldRetry flag is cleared by
the caller but whose message matches no non-retryable pattern is still
retried — executeWithRetry with maxAttempts 2 runs both attempts, sleeps
once, and wraps the message, instead of making exactly one attempt and
rethrowing, so the flag disjunct of the claim is false on this code. -/
theorem c8_counterexample :
    isRetryable ⟨"agent crashed", false⟩ = true ∧
    executeWithRetry (⟨2, 1000, 2⟩ : RetryConfig)
      (fun _ => (.error ⟨"agent crashed", false⟩ : Except AgentError Nat)) =
      .exhausted "Failed after 2 attempts: agent crashed" [1000] ∧
    executeWithRetry (⟨2, 1000, 2⟩ : RetryConfig)
      (fun _ => (.error ⟨"agent crashed", false⟩ : Except AgentError Nat)) ≠
      .raised "agent crashed" 1 [] := by
  refine ⟨by decide, by decide, by decide⟩

/-- Claim C8, amended: a thunk whose first failure carries a message matching
one of the non-retryable patterns (rate limit, quota exceeded,
authentication, not found, permission denied) makes exactly one attempt and
the original error message is rethrown unwrapped with no sleeping; the
caller-set shouldRetry flag is not consulted by this retry executor (it is
read by the external AI client, outside this code). -/
theorem c8_nonretryable_short_circuit (cfg : RetryConfig)
    (fn : Nat → Except AgentError Nat) (e : AgentError)
    (hM : 1 ≤ cfg.maxAttempts) (h1 : fn 1 = .error e)
    (hp : ∃ p ∈ nonRetryablePatterns, containsSub (lowerChars e.message.data) p.data = true) :
    executeWithRetry cfg fn = .raised e.message 1 [] := by
  have hnr : isRetryable e = false := by
    unfold isRetryable
    obtain ⟨p, hp1, hp2⟩ := hp
    rw [← Bool.not_eq_true]
    intro hall
    have := List.all_eq_true.mp hall p hp1
    rw [hp2] at this
    exact Bool.not_not_eq.mpr rfl this
  obtain ⟨m, hm⟩ : ∃ m, cfg.maxAttempts = m + 1 := ⟨cfg.maxAttempts - 1, by omega⟩
  unfold executeWithRetry
  rw [hm]
  simp [retryLoop, h1, hnr]

/-- Witness for the amended claim C8 at a rate-limit error. -/
theorem c8_witness :
    executeWithRetry (⟨3, 1000, 2⟩ : RetryConfig)
      (fun _ => (.error ⟨"Rate limit exceeded", true⟩ : Except AgentError Nat)) =
      .raised "Rate limit exceeded" 1 [] :=
  c8_nonretryable_short_circuit _ _ ⟨"Rate limit exceeded", true⟩ (by decide) rfl
    ⟨"rate limit", by decide, by decide⟩

/-! ## Status Reporter progress debounce (StatusUpdater)

Embedded from StatusUpdater.updateTaskProgress and _flushProgressUpdate for
one sub-ticket: a call merges the supplied fields into the pending record
per key (a provided key overwrites, an absent key keeps the pending value)
and re-arms the single timer; the timer expiry flushes: with no pending
record it returns, otherwise it performs one body write carrying the merged
fields and clears the pending record and timer.  Because every call clears
the previous timer, a burst of calls inside one 500 ms window is followed by
exactly one expiry, which the event list below reflects.
-/

/-- The four optional marker fields of one updateTaskProgress call. -/
structure ProgressFields where
  agentMessage : Option String
  toolsUsed : Option Nat
  retryCount : Option Nat
  lastRetryTime : Option String
deriving DecidableEq, Repr

/-- The pending merged update for a sub-ticket (JS object in the pending map). -/
structure PendingProgress where
  agentMessage : Option String := none
  toolsUsed : Option Nat := none
  retryCount : Option Nat := none
  lastRetryTime : Option String := none
deriving DecidableEq, Repr

/-- The per-key overwrite step: a provided value replaces the accumulator,
an undefined key keeps it. -/
def overwriteKey {β : Type} (a : Option β) (o : Option β) : Option β :=
  match o with
  | some v => some v
  | none => a

/-- Per-key merge of one call into the pending record (undefined keys keep
the pending value, as in updateTaskProgress). -/
def mergeProgress (pending : PendingProgress) (p : ProgressFields) : PendingProgress where
  agentMessage := overwriteKey pending.agentMessage p.agentMessage
  toolsUsed := overwriteKey pending.toolsUsed p.toolsUsed
  retryCount := overwriteKey pending.retryCount p.retryCount
  lastRetryTime := overwriteKey pending.lastRetryTime p.lastRetryTime

/-- Debouncer state for one sub-ticket: the pending record (if any) and
whether a timer is armed. -/
structure UpdaterState where
  pending : Option PendingProgress
  timerArmed : Bool
deriving DecidableEq, Repr

inductive UpdaterEvent where
  | call (p : ProgressFields)
  | expire
deriving DecidableEq, Repr

/-- One step of the debouncer; the second component is the list of body
writes performed so far (each element the field set of one write). -/
def stepUpdater : UpdaterState × List PendingProgress → UpdaterEvent →
    UpdaterState × List PendingProgress
  | (s, ws), .call p =>
    ({ pending := some (mergeProgress (s.pending.getD {}) p), timerArmed := true }, ws)
  | (s, ws), .expire =>
    match s.pending with
    | none => ({ s with timerArmed := false }, ws)
    | some pend => ({ pending := none, timerArmed := false }, ws ++ [pend])

def runUpdater (events : List UpdaterEvent) : UpdaterState × List PendingProgress :=
  events.foldl stepUpdater (⟨none, false⟩, [])

/-- The last value supplied for a key across a sequence of calls. -/
def lastProvided {β : Type} (l : List (Option β)) : Option β :=
  (l.filterMap id).getLast?

theorem runUpdater_calls (calls : List ProgressFields) (hne : calls ≠ []) :
    runUpdater (calls.map .call) =
      (⟨some (calls.foldl mergeProgress {}), true⟩, []) := by
  unfold runUpdater
  obtain ⟨c, rest, rfl⟩ : ∃ c rest, calls = c :: rest := by
    cases calls with
    | nil => exact absurd rfl hne
    | cons c rest => exact ⟨c, rest, rfl⟩
  simp only [List.map_cons, List.foldl_cons]
  have gen : ∀ (l : List ProgressFields) (acc : PendingProgress),
      (l.map UpdaterEvent.call).foldl stepUpdater (⟨some acc, true⟩, []) =
        (⟨some (l.foldl mergeProgress acc), true⟩, []) := by
    intro l
    induction l with
    | nil => intro acc; rfl
    | cons x t ih => intro acc; simp only [List.map_cons, List.foldl_cons]; exact ih _
  exact gen rest (mergeProgress {} c)

/-- Folding the per-key overwrite over a list of optional values yields the
last provided value, falling back to the accumulator. -/
theorem foldl_overwrite {β : Type} (l : List (Option β)) :
    ∀ acc : Option β,
      l.foldl overwriteKey acc =
        match lastProvided l with
        | some v => some v
        | none => acc := by
  induction l with
  | nil => intro acc; rfl
  | cons o t ih =>
    intro acc
    simp only [List.foldl_cons]
    rw [ih]
    cases o with
    | none =>
      have h : lastProvided (none :: t) = lastProvided t := by
        simp [lastProvided]
      rw [h]
      cases lastProvided t <;> rfl
    | some v =>
      have h : lastProvided (some v :: t) = some ((lastProvided t).getD v) := by
        simp [lastProvided, List.getLast?_cons]
      rw [h]
      cases lastProvided t <;> rfl

theorem foldl_merge_agentMessage (calls : List ProgressFields) :
    ∀ acc : PendingProgress,
      (calls.foldl mergeProgress acc).agentMessage =
        (calls.map (·.agentMessage)).foldl overwriteKey acc.agentMessage := by
  induction calls with
  | nil => intro acc; rfl
  | cons c t ih =>
    intro acc
    simp only [List.foldl_cons, List.map_cons]
    rw [ih]
    rfl

theorem foldl_merge_toolsUsed (calls : List ProgressFields) :
    ∀ acc : PendingProgress,
      (calls.foldl mergeProgress acc).toolsUsed =
        (calls.map (·.toolsUsed)).foldl overwriteKey acc.toolsUsed := by
  induction calls with
  | nil => intro acc; rfl
  | cons c t ih =>
    intro acc
    simp only [List.foldl_cons, List.map_cons]
    rw [ih]
    rfl

theorem foldl_merge_retryCount (calls : List ProgressFields) :
    ∀ acc : PendingProgress,
      (calls.foldl mergeProgress acc).retryCount =
        (calls.map (·.retryCount)).foldl overwriteKey acc.retryCount := by
  induction calls with
  | nil => intro acc; rfl
  | cons c t ih =>
    intro acc
    simp only [List.foldl_cons, List.map_cons]
    rw [ih]
    rfl

theorem foldl_merge_lastRetryTime (calls : List ProgressFields) :
    ∀ acc : PendingProgress,
      (calls.foldl mergeProgress acc).lastRetryTime =
        (calls.map (·.lastRetryTime)).foldl overwriteKey acc.lastRetryTime := by
  induction calls with
  | nil => intro acc; rfl
  | cons c t ih =>
    intro acc
    simp only [List.foldl_cons, List.map_cons]
    rw [ih]
    rfl

/-- Claim C4: for any nonempty burst of updateTaskProgress calls for the same
sub-ticket inside one 500 ms window, followed by the single tail expiry,
exactly one body write occurs, and its field set is for each key the last
value supplied for that key in the burst (a key never supplied stays unset). -/
theorem c4_debounced_progress (calls : List ProgressFields) (hne : calls ≠ []) :
    (runUpdater (calls.map .call ++ [.expire])).2 =
      [calls.foldl mergeProgress {}] ∧
    (calls.foldl mergeProgress {}).agentMessage =
      lastProvided (calls.map (·.agentMessage)) ∧
    (calls.foldl mergeProgress {}).toolsUsed =
      lastProvided (calls.map (·.toolsUsed)) ∧
    (calls.foldl mergeProgress {}).retryCount =
      lastProvided (calls.map (·.retryCount)) ∧
    (calls.foldl mergeProgress {}).lastRetryTime =
      lastProvided (calls.map (·.lastRetryTime)) := by
  refine ⟨?_, ?_, ?_, ?_, ?_⟩
  · unfold runUpdater
    rw [List.foldl_append]
    have h := runUpdater_calls calls hne
    unfold runUpdater at h
    rw [h]
    rfl
  · rw [foldl_merge_agentMessage, foldl_overwrite]
    cases lastProvided (calls.map (·.agentMessage)) <;> rfl
  · rw [foldl_merge_toolsUsed, foldl_overwrite]
    cases lastProvided (calls.map (·.toolsUsed)) <;> rfl
  · rw [foldl_merge_retryCount, foldl_overwrite]
    cases lastProvided (calls.map (·.retryCount)) <;> rfl
  · rw [foldl_merge_lastRetryTime, foldl_overwrite]
    cases lastProvided (calls.map (·.lastRetryTime)) <;> rfl

/-- Witness for claim C4 at a concrete two-call burst. -/
theorem c4_witness :
    (runUpdater ([ProgressFields.mk (some "reading files") (some 3) none none,
                  ProgressFields.mk (some "editing") none (some 1) none].map .call
        ++ [.expire])).2 =
      [{ agentMessage := some "editing", toolsUsed := some 3,
         retryCount := some 1, lastRetryTime := none }] := by
  have h := c4_debounced_progress
    [ProgressFields.mk (some "reading files") (some 3) none none,
     ProgressFields.mk (some "editing") none (some 1) none] (by decide)
  rw [h.1]
  decide

/-! ## Testing self-heal loop (TestRetryCoordinator)

Embedded from TestRetryCoordinator.coordinateTestFix: a while loop over
attempt numbers 1..maxAttempts (= 10) whose body creates a fix sub-ticket,
runs the fix agent, and re-runs the test; the whole body sits in a
try/catch whose handler logs and increments the attempt counter.  rerunTest
never throws (its own body is wrapped in a try/catch returning false).  The
interaction with the tracker, the agent executor and the notifier is an
oracle (FixAttemptEnv per attempt), and the calls the coordinator makes are
collected in an action trace.  handleMaxAttemptsReached runs whenever the
loop exits without the in-loop successful return, which covers both
exhaustion and the case where success handling itself threw.
-/

namespace SelfHeal

/-- Environment outcome of one fix attempt: each fallible step either
completes or throws with a message. -/
structure FixAttemptEnv where
  createFix : Except String Nat
  runAgent : Except String Unit
  rerunPassed : Bool
  afterPass : Except String Unit
  stillFailingComment : Except String Unit
deriving Repr

/-- External calls made by the coordinator, in order. -/
inductive CoordAction where
  | notify (event : String)
  | createFix (attempt : Nat)
  | runAgent (attempt : Nat)
  | rerun (attempt : Nat)
  | createComment (body : String)
  | closeIssue (n : Nat)
  | addLabels (labels : List String)
  | statusUpdate
deriving DecidableEq, Repr

structure CoordResult where
  success : Bool
  attempts : Nat
deriving DecidableEq, Repr

def maxAttempts : Nat := 10

/-- The action sequence of handleMaxAttemptsReached. -/
def handleMaxAttemptsReached : List CoordAction :=
  [ .addLabels ["oc-ralph:max-attempts-reached", "oc-ralph:test-failed"],
    .createComment ("❌ Maximum fix attempts (" ++ toString maxAttempts ++
      ") reached. Test could not be fixed automatically."),
    .notify "test-max-attempts-reached",
    .statusUpdate ]

/-- The attempt loop of coordinateTestFix; fuel = maxAttempts + 1 - k is the
number of attempts still allowed, and the catch-all per-attempt handler is
reflected in the error branches which consume the attempt and continue. -/
def fixLoop (envs : Nat → FixAttemptEnv) : Nat → Nat → List CoordAction →
    CoordResult × List CoordAction
  | _, 0, tr => (⟨false, maxAttempts⟩, tr ++ handleMaxAttemptsReached)
  | k, fuel + 1, tr =>
    match (envs k).createFix with
    | .error _ => fixLoop envs (k + 1) fuel tr
    | .ok fixNum =>
      let tr1 := tr ++ [.createFix k, .notify "test-fix-started", .statusUpdate]
      match (envs k).runAgent with
      | .error _ => fixLoop envs (k + 1) fuel tr1
      | .ok _ =>
        let tr2 := tr1 ++ [.runAgent k, .notify "test-fix-completed", .rerun k]
        if (envs k).rerunPassed then
          match (envs k).afterPass with
          | .ok _ =>
            (⟨true, k⟩, tr2 ++
              [ .createComment ("✅ Test passed after this fix! Attempt " ++ toString k ++
                  "/" ++ toString maxAttempts ++ " was successful."),
                .closeIssue fixNum,
                .notify "test-passed-after-fix",
                .statusUpdate ])
          | .error _ => (⟨false, maxAttempts⟩, tr2 ++ handleMaxAttemptsReached)
        else
          match (envs k).stillFailingComment with
          | .ok _ =>
            fixLoop envs (k + 1) fuel (tr2 ++
              [.createComment ("❌ Test still failing after this fix attempt. Moving to attempt "
                ++ toString (k + 1) ++ "/" ++ toString maxAttempts)])
          | .error _ => fixLoop envs (k + 1) fuel tr2

/-- coordinateTestFix for one failed test: initial test-failed notification,
then the attempt loop from attempt 1. -/
def coordinateTestFix (envs : Nat → FixAttemptEnv) : CoordResult × List CoordAction :=
  fixLoop envs 1 maxAttempts [.notify "test-failed"]

/-- An attempt whose every step completes but whose re-run still fails. -/
def cleanFailing : FixAttemptEnv :=
  { createFix := .ok 77, runAgent := .ok (), rerunPassed := false,
    afterPass := .ok (), stillFailingComment := .ok () }

/-- Is this action a createFix call. -/
def isCreateFix : CoordAction → Bool
  | .createFix _ => true
  | _ => false

theorem fixLoop_attempts_le (envs : Nat → FixAttemptEnv) :
    ∀ (fuel k : Nat) (tr : List CoordAction), k + fuel = maxAttempts + 1 →
      (fixLoop envs k fuel tr).1.attempts ≤ maxAttempts := by
  intro fuel
  induction fuel with
  | zero => intro k tr _; simp [fixLoop]
  | succ f ih =>
    intro k tr hk
    show (fixLoop envs k (f + 1) tr).1.attempts ≤ maxAttempts
    rw [fixLoop]
    cases (envs k).createFix with
    | error m => exact ih (k + 1) tr (by omega)
    | ok fixNum =>
      cases (envs k).runAgent with
      | error m => exact ih (k + 1) _ (by omega)
      | ok u =>
        by_cases hp : (envs k).rerunPassed
        · simp only [hp, if_true]
          cases (envs k).afterPass with
          | ok u2 => simp; omega
          | error m => simp
        · simp only [hp, if_false, Bool.false_eq_true]
          cases (envs k).stillFailingComment with
          | ok u2 => exact ih (k + 1) _ (by omega)
          | error m => exact ih (k + 1) _ (by omega)

theorem fixLoop_createFix_count (envs : Nat → FixAttemptEnv) :
    ∀ (fuel k : Nat) (tr : List CoordAction),
      ((fixLoop envs k fuel tr).2.countP isCreateFix) ≤ tr.countP isCreateFix + fuel := by
  intro fuel
  induction fuel with
  | zero =>
    intro k tr
    simp [fixLoop, List.countP_append, handleMaxAttemptsReached, isCreateFix, List.countP_cons]
  | succ f ih =>
    intro k tr
    show ((fixLoop envs k (f + 1) tr).2.countP isCreateFix) ≤ tr.countP isCreateFix + (f + 1)
    rw [fixLoop]
    cases (envs k).createFix with
    | error m => exact le_trans (ih (k + 1) tr) (by omega)
    | ok fixNum =>
      cases (envs k).runAgent with
      | error m =>
        refine le_trans (ih (k + 1) _) ?_
        simp [List.countP_append, isCreateFix, List.countP_cons]
        omega
      | ok u =>
        by_cases hp : (envs k).rerunPassed
        · simp only [hp, if_true]
          cases (envs k).afterPass with
          | ok u2 =>
            simp [List.countP_append, isCreateFix, List.countP_cons]
            try omega
          | error m =>
            simp [List.countP_append, isCreateFix, List.countP_cons,
              handleMaxAttemptsReached]
            try omega
        · simp only [hp, if_false, Bool.false_eq_true]
          cases (envs k).stillFailingComment with
          | ok u2 =>
            refine le_trans (ih (k + 1) _) ?_
            simp [List.countP_append, isCreateFix, List.countP_cons]
            omega
          | error m =>
            refine le_trans (ih (k + 1) _) ?_
            simp [List.countP_append, isCreateFix, List.countP_cons]
            omega

theorem fixLoop_exhaust_of_never_pass (envs : Nat → FixAttemptEnv)
    (h : ∀ k, (envs k).rerunPassed = false ∨ (envs k).createFix.isOk = false ∨
      (envs k).runAgent.isOk = false) :
    ∀ (fuel k : Nat) (tr : List CoordAction),
      ∃ pre, fixLoop envs k fuel tr = (⟨false, maxAttempts⟩, pre ++ handleMaxAttemptsReached) := by
  intro fuel
  induction fuel with
  | zero => intro k tr; exact ⟨tr, rfl⟩
  | succ f ih =>
    intro k tr
    show ∃ pre, fixLoop envs k (f + 1) tr = (⟨false, maxAttempts⟩, pre ++ handleMaxAttemptsReached)
    rw [fixLoop]
    cases hcf : (envs k).createFix with
    | error m => exact ih (k + 1) tr
    | ok fixNum =>
      cases hra : (envs k).runAgent with
      | error m => exact ih (k + 1) _
      | ok u =>
        have hp : (envs k).rerunPassed = false := by
          rcases h k with h1 | h1 | h1
          · exact h1
          · rw [hcf] at h1; simp [Except.isOk, Except.toBool] at h1
          · rw [hra] at h1; simp [Except.isOk, Except.toBool] at h1
        simp only [hp, Bool.false_eq_true, if_false]
        cases (envs k).stillFailingComment with
        | ok u2 => exact ih (k + 1) _
        | error m => exact ih (k + 1) _

end SelfHeal

namespace SelfHeal

/-- Status of one test in the aggregation phase (TestResultAggregator.
determineTestStatus); the fix-attempt count, a separate tracker query, is
not part of the label computation. -/
structure TestStatusInfo where
  passed : Bool
  maxAttemptsReached : Bool
deriving DecidableEq, Repr

/-- determineTestStatus: a test passes iff it carries none of test-failed,
failed, max-attempts-reached. -/
def determineTestStatus (labels : List String) : TestStatusInfo :=
  { passed := !(labels.any (fun l =>
      l == "oc-ralph:test-failed" || l == "oc-ralph:failed" ||
      l == "oc-ralph:max-attempts-reached")),
    maxAttemptsReached := labels.contains "oc-ralph:max-attempts-reached" }

theorem fixLoop_createFix_error (envs : Nat → FixAttemptEnv) (k f : Nat)
    (tr : List CoordAction) (h : (envs k).createFix.isOk = false) :
    fixLoop envs k (f + 1) tr = fixLoop envs (k + 1) f tr := by
  rw [fixLoop]
  cases hc : (envs k).createFix with
  | error m => rfl
  | ok n =>
    rw [hc] at h
    simp [Except.isOk, Except.toBool] at h

theorem fixLoop_success_step (envs : Nat → FixAttemptEnv) (k f : Nat)
    (tr : List CoordAction) (n : Nat)
    (h1 : (envs k).createFix = .ok n) (h2 : (envs k).runAgent = .ok ())
    (h3 : (envs k).rerunPassed = true) (h4 : (envs k).afterPass = .ok ()) :
    (fixLoop envs k (f + 1) tr).1 = ⟨true, k⟩ := by
  rw [fixLoop, h1, h2, h3, h4]
  rfl

end SelfHeal

/-- Claim C3: the coordinator performs at most 10 fix attempts for a failed
test (both the attempts field and the number of fix sub-tickets created are
at most 10); when the test still fails on every attempt, the result is
unsuccessful with attempts = 10 and the trace ends with the
handleMaxAttemptsReached block (max-attempts-reached and test-failed labels,
a comment, the test-max-attempts-reached notification, a status update); and
in the aggregation a test carrying max-attempts-reached counts as failed, so
the testing stage fails. -/
theorem c3_self_heal_exhaustion :
    (∀ envs : Nat → SelfHeal.FixAttemptEnv,
      (SelfHeal.coordinateTestFix envs).1.attempts ≤ SelfHeal.maxAttempts ∧
      ((SelfHeal.coordinateTestFix envs).2.countP SelfHeal.isCreateFix) ≤
        SelfHeal.maxAttempts) ∧
    (∀ envs : Nat → SelfHeal.FixAttemptEnv,
      (∀ k, (envs k).rerunPassed = false) →
      (SelfHeal.coordinateTestFix envs).1 = ⟨false, SelfHeal.maxAttempts⟩ ∧
      ∃ pre, (SelfHeal.coordinateTestFix envs).2 =
        pre ++ SelfHeal.handleMaxAttemptsReached) ∧
    (∀ labels : List String, "oc-ralph:max-attempts-reached" ∈ labels →
      (SelfHeal.determineTestStatus labels).passed = false) := by
  refine ⟨?_, ?_, ?_⟩
  · intro envs
    constructor
    · exact SelfHeal.fixLoop_attempts_le envs SelfHeal.maxAttempts 1 _ rfl
    · have h := SelfHeal.fixLoop_createFix_count envs SelfHeal.maxAttempts 1
        [.notify "test-failed"]
      simpa [SelfHeal.isCreateFix] using h
  · intro envs hp
    obtain ⟨pre, hpre⟩ := SelfHeal.fixLoop_exhaust_of_never_pass envs
      (fun k => Or.inl (hp k)) SelfHeal.maxAttempts 1 [.notify "test-failed"]
    unfold SelfHeal.coordinateTestFix
    rw [hpre]
    exact ⟨rfl, pre, rfl⟩
  · intro labels hmem
    have hany : (labels.any (fun l =>
        l == "oc-ralph:test-failed" || l == "oc-ralph:failed" ||
        l == "oc-ralph:max-attempts-reached")) = true :=
      List.any_eq_true.mpr ⟨_, hmem, by decide⟩
    simp [SelfHeal.determineTestStatus, hany]

/-- Witness for claim C3: every attempt completes but the test keeps failing;
the coordinator reports 10 unsuccessful attempts and the aggregation counts
the labelled test as failed. -/
theorem c3_witness :
    (SelfHeal.coordinateTestFix (fun _ => SelfHeal.cleanFailing)).1 =
      ⟨false, SelfHeal.maxAttempts⟩ ∧
    (SelfHeal.determineTestStatus
      ["oc-ralph:sub-issue", "oc-ralph:max-attempts-reached"]).passed = false :=
  ⟨(c3_self_heal_exhaustion.2.1 (fun _ => SelfHeal.cleanFailing) (fun _ => rfl)).1,
   c3_self_heal_exhaustion.2.2 _ (by decide)⟩

/-- Claim C10: an exception in creating the fix sub-ticket or running the fix
agent is caught inside the attempt loop and consumes that attempt (shown by
the loop reaching attempt 2 and succeeding there after attempt 1 threw); and
when every attempt is consumed by an exception the coordinator returns
success false with attempts 10 and performs the max-attempts-reached
handling — no per-attempt exception escapes the loop, which in this total
model is expressed by the loop returning a result in every such case. -/
theorem c10_attempt_errors_consumed :
    (∀ envs : Nat → SelfHeal.FixAttemptEnv,
      (∀ k, (envs k).createFix.isOk = false ∨ (envs k).runAgent.isOk = false) →
      (SelfHeal.coordinateTestFix envs).1 = ⟨false, SelfHeal.maxAttempts⟩ ∧
      ∃ pre, (SelfHeal.coordinateTestFix envs).2 =
        pre ++ SelfHeal.handleMaxAttemptsReached) ∧
    (∀ (envs : Nat → SelfHeal.FixAttemptEnv) (n : Nat),
      (envs 1).createFix.isOk = false →
      (envs 2).createFix = .ok n → (envs 2).runAgent = .ok () →
      (envs 2).rerunPassed = true → (envs 2).afterPass = .ok () →
      (SelfHeal.coordinateTestFix envs).1 = ⟨true, 2⟩) := by
  constructor
  · intro envs herr
    obtain ⟨pre, hpre⟩ := SelfHeal.fixLoop_exhaust_of_never_pass envs
      (fun k => Or.inr (herr k)) SelfHeal.maxAttempts 1 [.notify "test-failed"]
    unfold SelfHeal.coordinateTestFix
    rw [hpre]
    exact ⟨rfl, pre, rfl⟩
  · intro envs n h1 h2 h3 h4 h5
    unfold SelfHeal.coordinateTestFix
    rw [show SelfHeal.maxAttempts = 9 + 1 from rfl]
    rw [SelfHeal.fixLoop_createFix_error envs 1 9 _ h1]
    rw [show (9 : Nat) = 8 + 1 from rfl]
    exact SelfHeal.fixLoop_success_step envs (1 + 1) 8 _ n h2 h3 h4 h5

/-- Witness for claim C10: attempt 1 throws while creating the fix
sub-ticket, attempt 2 runs clean and passes; the coordinator reports success
after 2 attempts, and an always-throwing environment yields the unsuccessful
10-attempt result. -/
theorem c10_witness :
    (SelfHeal.coordinateTestFix (fun k =>
      if k = 1 then
        { createFix := .error "boom", runAgent := .ok (), rerunPassed := false,
          afterPass := .ok (), stillFailingComment := .ok () }
      else
        { createFix := .ok 5, runAgent := .ok (), rerunPassed := true,
          afterPass := .ok (), stillFailingComment := .ok () })).1 = ⟨true, 2⟩ ∧
    (SelfHeal.coordinateTestFix (fun _ =>
      { createFix := .error "boom", runAgent := .ok (), rerunPassed := false,
        afterPass := .ok (), stillFailingComment := .ok () })).1 =
      ⟨false, SelfHeal.maxAttempts⟩ :=
  ⟨c10_attempt_errors_consumed.2
    (fun k =>
      if k = 1 then
        { createFix := .error "boom", runAgent := .ok (), rerunPassed := false,
          afterPass := .ok (), stillFailingComment := .ok () }
      else
        { createFix := .ok 5, runAgent := .ok (), rerunPassed := true,
          afterPass := .ok (), stillFailingComment := .ok () })
    5 rfl rfl rfl rfl rfl,
   (c10_attempt_errors_consumed.1
    (fun _ =>
      { createFix := .error "boom", runAgent := .ok (), rerunPassed := false,
        afterPass := .ok (), stillFailingComment := .ok () })
    (fun _ => Or.inl rfl)).1⟩

/-! ## Dependency Resolver

Embedded from DependencyResolver: buildDependencyGraph builds the id to
dependency-list object by assignment in task order (later assignments with
the same id overwrite, as in JS objects) and validates that every listed
prerequisite is a key, throwing on the first violation; resolveBatches
repeatedly extracts dependency-free tasks into batches, sorting each batch
by id, and throws a circular-dependency error when the fixpoint leaves
tasks unscheduled.  The while loop is modelled with fuel tasks.length + 1,
which always dominates the number of iterations because every non-empty
batch strictly grows the completed id set (bounded by the number of ids).
-/

namespace DepRes

structure Task where
  id : String
  dependencies : List String
deriving DecidableEq, Repr

inductive ResolverError where
  | invalidDependency (taskId depId : String)
  | cyclic (missingIds : List String)
deriving DecidableEq, Repr

def taskIds (tasks : List Task) : List String := tasks.map Task.id

/-- The graph object: graph[task.id] = task.dependencies assigned in task
order, later assignments overwriting earlier ones. -/
def buildObj (tasks : List Task) : String → Option (List String) :=
  tasks.foldl (fun g t => fun k => if k = t.id then some t.dependencies else g k)
    (fun _ => none)

/-- JS hasOwnProperty on the graph object. -/
def hasKey (g : String → Option (List String)) (k : String) : Bool := (g k).isSome

/-- buildDependencyGraph: build the object, then throw on the first task
whose dependency list contains a non-key (iteration in task order, then
dependency order). -/
def buildDependencyGraph (tasks : List Task) :
    Except ResolverError (String → Option (List String)) :=
  match tasks.findSome? (fun t =>
      ((buildObj tasks t.id).getD []).findSome? (fun d =>
        if hasKey (buildObj tasks) d then none else some (t.id, d))) with
  | some bad => .error (.invalidDependency bad.1 bad.2)
  | none => .ok (buildObj tasks)

/-- graph[i] with the JS fallback to the empty list. -/
def depsOfTask (g : String → Option (List String)) (i : String) : List String :=
  (g i).getD []

/-- The first-batch filter: no entry, or an empty dependency list. -/
def noDeps (g : String → Option (List String)) (t : Task) : Bool :=
  match g t.id with
  | none => true
  | some l => l.isEmpty

/-- The id comparator used to sort a batch. -/
def idLe (a b : Task) : Prop := lexLe a.id.data b.id.data = true

instance : DecidableRel idLe := fun a b =>
  inferInstanceAs (Decidable (lexLe a.id.data b.id.data = true))

instance : IsTotal Task idLe where
  total a b := lexLe_total a.id.data b.id.data

instance : IsTrans Task idLe where
  trans a b c := lexLe_trans a.id.data b.id.data c.id.data

/-- The while loop of resolveBatches: sort the batch, append it, mark its
ids completed, recompute the next batch, repeat while non-empty. -/
def resolveLoop (tasks : List Task) (g : String → Option (List String)) :
    Nat → Finset String → List (List Task) → List Task →
    List (List Task) × Finset String
  | 0, completed, batches, _ => (batches, completed)
  | fuel + 1, completed, batches, currentBatch =>
    if currentBatch.isEmpty then (batches, completed)
    else
      let sorted := currentBatch.insertionSort idLe
      let completed' := currentBatch.foldl (fun s t => insert t.id s) completed
      let next := tasks.filter (fun t =>
        !(decide (t.id ∈ completed')) &&
        (depsOfTask g t.id).all (fun d => decide (d ∈ completed')))
      resolveLoop tasks g fuel completed' (batches ++ [sorted]) next

/-- resolveBatches: extract batches until the fixpoint; if the completed id
set does not cover every task, throw the circular-dependency error naming
the missing tasks. -/
def resolveBatches (tasks : List Task) (g : String → Option (List String)) :
    Except ResolverError (List (List Task)) :=
  match resolveLoop tasks g (tasks.length + 1) ∅ [] (tasks.filter (fun t => noDeps g t)) with
  | (batches, completed) =>
    if completed.card = tasks.length then .ok batches
    else .error (.cyclic
      ((tasks.filter (fun t => !(decide (t.id ∈ completed)))).map Task.id))

/-- One task depends on another: b is listed among a's dependencies. -/
def Rel (g : String → Option (List String)) (a b : String) : Prop :=
  b ∈ depsOfTask g a

/-- The dependency graph has no directed cycle. -/
def Acyclic (g : String → Option (List String)) : Prop :=
  ∀ a, ¬ Relation.TransGen (Rel g) a a

theorem buildObj_append (ts : List Task) (t : Task) (k : String) :
    buildObj (ts ++ [t]) k = if k = t.id then some t.dependencies else buildObj ts k := by
  unfold buildObj
  rw [List.foldl_append]
  rfl

theorem buildObj_isSome_iff (tasks : List Task) (k : String) :
    (buildObj tasks k).isSome = true ↔ k ∈ taskIds tasks := by
  induction tasks using List.reverseRecOn with
  | nil => simp [buildObj, taskIds]
  | append_singleton ts t ih =>
    rw [buildObj_append]
    by_cases hk : k = t.id
    · simp [hk, taskIds]
    · simp only [hk, if_false, ite_false, ih, taskIds, List.map_append, List.map_cons,
        List.map_nil, List.mem_append, List.mem_singleton]
      constructor
      · exact Or.inl
      · rintro (h | h)
        · exact h
        · exact h.elim

theorem buildObj_of_nodup (tasks : List Task) (hnd : (taskIds tasks).Nodup)
    (t : Task) (ht : t ∈ tasks) : buildObj tasks t.id = some t.dependencies := by
  induction tasks using List.reverseRecOn with
  | nil => cases ht
  | append_singleton ts x ih =>
    rw [buildObj_append]
    rcases List.mem_append.mp ht with h | h
    · have hne : t.id ≠ x.id := by
        intro he
        unfold taskIds at hnd
        rw [List.map_append] at hnd
        have hx : x.id ∉ ts.map Task.id := by
          have := List.disjoint_of_nodup_append hnd
          intro hc
          exact this hc (by simp)
        exact hx (he ▸ List.mem_map_of_mem Task.id h)
      rw [if_neg hne]
      apply ih
      · unfold taskIds at hnd ⊢
        rw [List.map_append] at hnd
        exact List.Nodup.of_append_left hnd
      · exact h
    · rw [List.mem_singleton] at h
      rw [h, if_pos rfl]

theorem mem_foldl_insert (l : List Task) :
    ∀ (s : Finset String) (x : String),
      x ∈ l.foldl (fun s t => insert t.id s) s ↔ x ∈ s ∨ x ∈ l.map Task.id := by
  induction l with
  | nil => intro s x; simp
  | cons t rest ih =>
    intro s x
    simp only [List.foldl_cons, List.map_cons, List.mem_cons]
    rw [ih]
    simp only [Finset.mem_insert]
    tauto

theorem mem_nextBatch_iff (tasks : List Task) (g : String → Option (List String))
    (c : Finset String) (t : Task) :
    t ∈ tasks.filter (fun t =>
        !(decide (t.id ∈ c)) && (depsOfTask g t.id).all (fun d => decide (d ∈ c))) ↔
      t ∈ tasks ∧ t.id ∉ c ∧ ∀ d ∈ depsOfTask g t.id, d ∈ c := by
  simp [List.mem_filter, List.all_eq_true]

theorem filter_or_perm {α : Type} (l : List α) (p q : α → Bool)
    (h : ∀ x ∈ l, ¬(p x = true ∧ q x = true)) :
    (l.filter (fun x => p x || q x)).Perm (l.filter p ++ l.filter q) := by
  induction l with
  | nil => simp
  | cons a t ih =>
    have ht : ∀ x ∈ t, ¬(p x = true ∧ q x = true) :=
      fun x hx => h x (List.mem_cons_of_mem _ hx)
    by_cases hp : p a = true
    · have hq : q a = false := by
        cases hqa : q a with
        | false => rfl
        | true => exact absurd ⟨hp, hqa⟩ (h a (List.mem_cons_self _ _))
      simp only [List.filter_cons, hp, hq, Bool.true_or, if_true, cond_true]
      exact (ih ht).cons a
    · have hp' : p a = false := by
        cases hpa : p a with
        | false => rfl
        | true => exact absurd hpa hp
      cases hq : q a with
      | false =>
        simp only [List.filter_cons, hp', hq, Bool.or_self, cond_false]
        exact ih ht
      | true =>
        simp only [List.filter_cons, hp', hq, Bool.false_or, cond_true, cond_false]
        exact ((ih ht).cons a).trans List.perm_middle.symm

end DepRes

namespace DepRes

theorem transGen_head_decomp {α : Type} {r : α → α → Prop} {a c : α}
    (h : Relation.TransGen r a c) : ∃ b, r a b ∧ (b = c ∨ Relation.TransGen r b c) := by
  induction h with
  | single h1 => exact ⟨_, h1, Or.inl rfl⟩
  | tail hab hbc ih =>
    obtain ⟨b, hb, rest⟩ := ih
    refine ⟨b, hb, Or.inr ?_⟩
    cases rest with
    | inl he => rw [he]; exact Relation.TransGen.single hbc
    | inr ht => exact ht.tail hbc

theorem cycle_through_dep {g : String → Option (List String)} {x : String}
    (h : Relation.TransGen (Rel g) x x) :
    ∃ d, d ∈ depsOfTask g x ∧ Relation.TransGen (Rel g) d d := by
  obtain ⟨b, hb, rest⟩ := transGen_head_decomp h
  cases rest with
  | inl he =>
    subst he
    exact ⟨b, hb, h⟩
  | inr ht => exact ⟨b, hb, ht.trans (Relation.TransGen.single hb)⟩

theorem rel_mem_keys {g : String → Option (List String)} {a b : String}
    (h : Rel g a b) : hasKey g a = true := by
  unfold Rel depsOfTask at h
  cases hg : g a with
  | none => rw [hg] at h; cases h
  | some l => simp [hasKey, hg]

theorem acyclic_of_no_rel (g : String → Option (List String))
    (h : ∀ a b, ¬ Rel g a b) : Acyclic g := by
  intro a hcyc
  obtain ⟨b, hb, _⟩ := transGen_head_decomp hcyc
  exact h a b hb

theorem acyclic_of_rank (g : String → Option (List String)) (rank : String → Nat)
    (h : ∀ a b, Rel g a b → rank b < rank a) : Acyclic g := by
  have ht : ∀ a b, Relation.TransGen (Rel g) a b → rank b < rank a := by
    intro a b htg
    induction htg with
    | single h1 => exact h _ _ h1
    | tail _ h2 ih => exact lt_trans (h _ _ h2) ih
  intro a hcyc
  exact lt_irrefl _ (ht a a hcyc)

/-- In an acyclic graph every nonempty finite set of vertices has a member
none of whose dependencies lies in the set (the Kahn extraction source). -/
theorem exists_source (g : String → Option (List String)) (hacyc : Acyclic g)
    (S : Finset String) (hS : S.Nonempty) :
    ∃ a ∈ S, ∀ d ∈ depsOfTask g a, d ∉ S := by
  classical
  let r : {x // x ∈ S} → {x // x ∈ S} → Prop :=
    fun x y => Relation.TransGen (Rel g) y.val x.val
  haveI : IsTrans {x // x ∈ S} r := ⟨fun _ _ _ hab hbc => hbc.trans hab⟩
  haveI : IsIrrefl {x // x ∈ S} r := ⟨fun x hx => hacyc x.val hx⟩
  have hwf : WellFounded r := Finite.wellFounded_of_trans_of_irrefl r
  obtain ⟨x, hx⟩ := hS
  obtain ⟨a, _, hmin⟩ := hwf.has_min Set.univ ⟨⟨x, hx⟩, Set.mem_univ _⟩
  refine ⟨a.val, a.property, ?_⟩
  intro d hd hdS
  exact hmin ⟨d, hdS⟩ (Set.mem_univ _) (Relation.TransGen.single hd)

/-- Along the loop, ids of tasks on a directed cycle never enter the
completed set, and completed ids are task ids. -/
theorem resolveLoop_no_cycle_completed (tasks : List Task)
    (g : String → Option (List String)) :
    ∀ (fuel : Nat) (completed : Finset String) (batches : List (List Task))
      (cb : List Task),
      (∀ t ∈ cb, t ∈ tasks) →
      (∀ t ∈ cb, ∀ d ∈ depsOfTask g t.id, d ∈ completed) →
      (∀ x ∈ completed, x ∈ taskIds tasks) →
      (∀ x ∈ completed, ¬ Relation.TransGen (Rel g) x x) →
      (∀ x ∈ (resolveLoop tasks g fuel completed batches cb).2, x ∈ taskIds tasks) ∧
      (∀ x ∈ (resolveLoop tasks g fuel completed batches cb).2,
        ¬ Relation.TransGen (Rel g) x x) := by
  intro fuel
  induction fuel with
  | zero => intro completed batches cb _ _ hmem hinv; exact ⟨hmem, hinv⟩
  | succ f ih =>
    intro completed batches cb hsub hdeps hmem hinv
    rw [resolveLoop]
    by_cases hem : cb.isEmpty
    · rw [if_pos hem]
      exact ⟨hmem, hinv⟩
    · rw [if_neg hem]
      have hmem' : ∀ x ∈ cb.foldl (fun s t => insert t.id s) completed,
          x ∈ taskIds tasks := by
        intro x hx
        rcases (mem_foldl_insert cb completed x).mp hx with h | h
        · exact hmem x h
        · obtain ⟨t, ht, rfl⟩ := List.mem_map.mp h
          exact List.mem_map_of_mem Task.id (hsub t ht)
      have hinv' : ∀ x ∈ cb.foldl (fun s t => insert t.id s) completed,
          ¬ Relation.TransGen (Rel g) x x := by
        intro x hx hcyc
        rcases (mem_foldl_insert cb completed x).mp hx with h | h
        · exact hinv x h hcyc
        · obtain ⟨t, ht, rfl⟩ := List.mem_map.mp h
          obtain ⟨d, hd, hdcyc⟩ := cycle_through_dep hcyc
          exact hinv d (hdeps t ht d hd) hdcyc
      apply ih
      · intro t ht
        exact (List.mem_filter.mp ht).1
      · intro t ht d hd
        have := (List.mem_filter.mp ht).2
        rw [Bool.and_eq_true] at this
        have hall := List.all_eq_true.mp this.2 d hd
        simpa using hall
      · exact hmem'
      · exact hinv'

end DepRes

namespace DepRes

theorem card_le_tasks_length (tasks : List Task) (completed : Finset String)
    (hmem : ∀ x ∈ completed, x ∈ taskIds tasks) : completed.card ≤ tasks.length := by
  have hsub : completed ⊆ (taskIds tasks).toFinset :=
    fun x hx => List.mem_toFinset.mpr (hmem x hx)
  calc completed.card ≤ (taskIds tasks).toFinset.card := Finset.card_le_card hsub
    _ ≤ (taskIds tasks).length := (taskIds tasks).toFinset_card_le
    _ = tasks.length := by unfold taskIds; rw [List.length_map]

theorem resolveLoop_correct (tasks : List Task) (g : String → Option (List String))
    (hnd : (taskIds tasks).Nodup)
    (hvalid : ∀ t ∈ tasks, ∀ d ∈ depsOfTask g t.id, d ∈ taskIds tasks)
    (hacyc : Acyclic g) :
    ∀ (fuel : Nat) (completed : Finset String) (batches : List (List Task))
      (cb : List Task),
      cb = tasks.filter (fun t => !(decide (t.id ∈ completed)) &&
            (depsOfTask g t.id).all (fun d => decide (d ∈ completed))) →
      (batches.flatten).Perm (tasks.filter (fun t => decide (t.id ∈ completed))) →
      (∀ x ∈ completed, x ∈ taskIds tasks) →
      tasks.length + 1 ≤ fuel + completed.card →
      (∀ (i : Nat) (b : List Task), batches[i]? = some b →
        ∀ t ∈ b, ∀ d ∈ depsOfTask g t.id,
        ∃ (j : Nat) (b' : List Task), j < i ∧ batches[j]? = some b' ∧
          d ∈ b'.map Task.id) →
      (∀ b ∈ batches, b.Pairwise idLe) →
      (resolveLoop tasks g fuel completed batches cb).2.card = tasks.length ∧
      (resolveLoop tasks g fuel completed batches cb).1.flatten.Perm tasks ∧
      (∀ (i : Nat) (b : List Task),
        (resolveLoop tasks g fuel completed batches cb).1[i]? = some b →
        ∀ t ∈ b, ∀ d ∈ depsOfTask g t.id,
        ∃ (j : Nat) (b' : List Task), j < i ∧
          (resolveLoop tasks g fuel completed batches cb).1[j]? = some b' ∧
          d ∈ b'.map Task.id) ∧
      (∀ b ∈ (resolveLoop tasks g fuel completed batches cb).1, b.Pairwise idLe) := by
  intro fuel
  induction fuel with
  | zero =>
    intro completed batches cb _ _ hmemc harith _ _
    exfalso
    have := card_le_tasks_length tasks completed hmemc
    omega
  | succ f ih =>
    intro completed batches cb hcb hperm hmemc harith horder hsorted
    rw [resolveLoop]
    by_cases hem : cb.isEmpty
    · rw [if_pos hem]
      have hcbnil : cb = [] := List.isEmpty_iff.mp hem
      have hsuper : ∀ x ∈ taskIds tasks, x ∈ completed := by
        by_contra hcon
        push_neg at hcon
        obtain ⟨x, hx, hxnc⟩ := hcon
        have hSne : ((taskIds tasks).toFinset \ completed).Nonempty :=
          ⟨x, Finset.mem_sdiff.mpr ⟨List.mem_toFinset.mpr hx, hxnc⟩⟩
        obtain ⟨a, haS, hasrc⟩ := exists_source g hacyc _ hSne
        have haids : a ∈ taskIds tasks :=
          List.mem_toFinset.mp (Finset.mem_sdiff.mp haS).1
        have hanc : a ∉ completed := (Finset.mem_sdiff.mp haS).2
        obtain ⟨ta, hta, htaid⟩ := List.mem_map.mp haids
        have hdepsc : ∀ d ∈ depsOfTask g ta.id, d ∈ completed := by
          intro d hd
          have hdids : d ∈ taskIds tasks := hvalid ta hta d hd
          have hdnS : d ∉ (taskIds tasks).toFinset \ completed := by
            rw [htaid] at hd
            exact hasrc d hd
          by_contra hdnc
          exact hdnS (Finset.mem_sdiff.mpr ⟨List.mem_toFinset.mpr hdids, hdnc⟩)
        have hmemf : ta ∈ tasks.filter (fun t => !(decide (t.id ∈ completed)) &&
            (depsOfTask g t.id).all (fun d => decide (d ∈ completed))) := by
          rw [List.mem_filter]
          refine ⟨hta, ?_⟩
          rw [Bool.and_eq_true]
          constructor
          · simp [htaid, hanc]
          · rw [List.all_eq_true]
            intro d hd
            simpa using hdepsc d hd
        rw [← hcb, hcbnil] at hmemf
        cases hmemf
      have hceq : completed = (taskIds tasks).toFinset := by
        apply Finset.Subset.antisymm
        · exact fun y hy => List.mem_toFinset.mpr (hmemc y hy)
        · exact fun y hy => hsuper y (List.mem_toFinset.mp hy)
      have hcard : completed.card = tasks.length := by
        rw [hceq, List.toFinset_card_of_nodup hnd]
        unfold taskIds
        rw [List.length_map]
      have hfe : tasks.filter (fun t => decide (t.id ∈ completed)) = tasks := by
        rw [List.filter_eq_self]
        intro t ht
        simpa using hsuper t.id (List.mem_map_of_mem Task.id ht)
      rw [hfe] at hperm
      exact ⟨hcard, hperm, horder, hsorted⟩
    · rw [if_neg hem]
      have hcbne : cb ≠ [] := by
        intro hnil
        rw [hnil] at hem
        exact hem rfl
      have hinj : ∀ ⦃x : Task⦄, x ∈ tasks → ∀ ⦃y : Task⦄, y ∈ tasks → x.id = y.id → x = y :=
        List.inj_on_of_nodup_map hnd
      have hcbiff : ∀ t, t ∈ cb ↔
          t ∈ tasks ∧ t.id ∉ completed ∧ ∀ d ∈ depsOfTask g t.id, d ∈ completed := by
        intro t
        rw [hcb]
        exact mem_nextBatch_iff tasks g completed t
      have hc'mem : ∀ x, x ∈ cb.foldl (fun s t => insert t.id s) completed ↔
          x ∈ completed ∨ x ∈ cb.map Task.id := mem_foldl_insert cb completed
      -- the next batch has the invariant shape by definition
      have hmemc' : ∀ x ∈ cb.foldl (fun s t => insert t.id s) completed,
          x ∈ taskIds tasks := by
        intro x hx
        rcases (hc'mem x).mp hx with h | h
        · exact hmemc x h
        · obtain ⟨t, ht, rfl⟩ := List.mem_map.mp h
          exact List.mem_map_of_mem Task.id ((hcbiff t).mp ht).1
      have hfiltc' : tasks.filter
            (fun t => decide (t.id ∈ cb.foldl (fun s t => insert t.id s) completed)) =
          tasks.filter (fun t => decide (t.id ∈ completed) ||
            decide (t.id ∈ cb.map Task.id)) := by
        apply List.filter_congr
        intro t _
        have h := hc'mem t.id
        rw [Bool.eq_iff_iff]
        simp [h]
      have hdisj : ∀ t ∈ tasks, ¬(decide (t.id ∈ completed) = true ∧
          decide (t.id ∈ cb.map Task.id) = true) := by
        rintro t _ ⟨h1, h2⟩
        rw [decide_eq_true_iff] at h1 h2
        obtain ⟨t', ht', htid⟩ := List.mem_map.mp h2
        have := ((hcbiff t').mp ht').2.1
        rw [htid] at this
        exact this h1
      have hfq : tasks.filter (fun t => decide (t.id ∈ cb.map Task.id)) = cb := by
        conv_rhs => rw [hcb]
        apply List.filter_congr
        intro t ht
        rw [Bool.eq_iff_iff]
        constructor
        · intro h2
          obtain ⟨t', ht', htid⟩ := List.mem_map.mp (decide_eq_true_iff.mp h2)
          have ht'cb := (hcbiff t').mp ht'
          have hteq : t' = t := hinj ht'cb.1 ht htid
          have htcb : t ∈ cb := hteq ▸ ht'
          rw [hcb] at htcb
          exact (List.mem_filter.mp htcb).2
        · intro h2
          have htcb : t ∈ cb := by
            rw [hcb]
            exact List.mem_filter.mpr ⟨ht, h2⟩
          exact decide_eq_true_iff.mpr (List.mem_map_of_mem Task.id htcb)
      have hperm' : ((batches ++ [cb.insertionSort idLe]).flatten).Perm
          (tasks.filter
            (fun t => decide (t.id ∈ cb.foldl (fun s t => insert t.id s) completed))) := by
        rw [hfiltc', List.flatten_append]
        have h1 : ((tasks.filter (fun t => decide (t.id ∈ completed) ||
            decide (t.id ∈ cb.map Task.id)))).Perm
            (tasks.filter (fun t => decide (t.id ∈ completed)) ++
             tasks.filter (fun t => decide (t.id ∈ cb.map Task.id))) :=
          filter_or_perm tasks _ _ hdisj
        rw [hfq] at h1
        refine List.Perm.trans ?_ h1.symm
        simp only [List.flatten_cons, List.flatten_nil, List.append_nil]
        exact hperm.append (List.perm_insertionSort idLe cb)
      have harith' : tasks.length + 1 ≤
          f + (cb.foldl (fun s t => insert t.id s) completed).card := by
        obtain ⟨t0, ht0⟩ : ∃ t0, t0 ∈ cb := by
          cases cb with
          | nil => exact absurd rfl hcbne
          | cons a l => exact ⟨a, List.mem_cons_self _ _⟩
        have hss : completed ⊂ cb.foldl (fun s t => insert t.id s) completed := by
          rw [Finset.ssubset_iff_of_subset
            (fun x hx => (hc'mem x).mpr (Or.inl hx))]
          exact ⟨t0.id, (hc'mem t0.id).mpr (Or.inr (List.mem_map_of_mem Task.id ht0)),
            ((hcbiff t0).mp ht0).2.1⟩
        have := Finset.card_lt_card hss
        omega
      have hfromc : ∀ d ∈ completed, ∃ (j : Nat) (b' : List Task), j < batches.length ∧
          batches[j]? = some b' ∧ d ∈ b'.map Task.id := by
        intro d hd
        obtain ⟨td, htd, hdeq⟩ := List.mem_map.mp (hmemc d hd)
        have htdf : td ∈ tasks.filter (fun t => decide (t.id ∈ completed)) :=
          List.mem_filter.mpr ⟨htd, by simp [hdeq, hd]⟩
        have htdfl : td ∈ batches.flatten := hperm.mem_iff.mpr htdf
        obtain ⟨b', hb', htdb⟩ := List.mem_flatten.mp htdfl
        obtain ⟨j, hj⟩ := List.mem_iff_getElem?.mp hb'
        have hjlt : j < batches.length := by
          by_contra hge
          rw [List.getElem?_eq_none (Nat.le_of_not_lt hge)] at hj
          cases hj
        exact ⟨j, b', hjlt, hj, hdeq ▸ List.mem_map_of_mem Task.id htdb⟩
      have horder' : ∀ (i : Nat) (b : List Task),
          (batches ++ [cb.insertionSort idLe])[i]? = some b →
          ∀ t ∈ b, ∀ d ∈ depsOfTask g t.id,
          ∃ (j : Nat) (b' : List Task), j < i ∧
            (batches ++ [cb.insertionSort idLe])[j]? = some b' ∧
            d ∈ b'.map Task.id := by
        intro i b hib t htb d hd
        by_cases hi : i < batches.length
        · rw [List.getElem?_append_left hi] at hib
          obtain ⟨j, b', hji, hjb, hdb⟩ := horder i b hib t htb d hd
          exact ⟨j, b', hji, by rw [List.getElem?_append_left (lt_trans hji hi)]; exact hjb, hdb⟩
        · have hile : i = batches.length := by
            by_contra hne2
            have : batches.length < i := lt_of_le_of_ne (Nat.le_of_not_lt hi) (Ne.symm hne2)
            rw [List.getElem?_append_right (Nat.le_of_not_lt hi)] at hib
            have h1 : 1 ≤ i - batches.length := by omega
            rw [List.getElem?_eq_none (by simpa using h1)] at hib
            cases hib
          subst hile
          rw [List.getElem?_append_right (Nat.le_refl _), Nat.sub_self] at hib
          have hbs : cb.insertionSort idLe = b := by
            simpa using hib
          have htb' : t ∈ cb.insertionSort idLe := by
            rw [hbs]
            exact htb
          have htcb : t ∈ cb :=
            (List.perm_insertionSort idLe cb).mem_iff.mp htb' 
          have hdc : d ∈ completed := ((hcbiff t).mp htcb).2.2 d hd
          obtain ⟨j, b', hjlt, hjb, hdb⟩ := hfromc d hdc
          exact ⟨j, b', hjlt, by rw [List.getElem?_append_left hjlt]; exact hjb, hdb⟩
      have hsorted' : ∀ b ∈ batches ++ [cb.insertionSort idLe], b.Pairwise idLe := by
        intro b hb
        rcases List.mem_append.mp hb with h | h
        · exact hsorted b h
        · rw [List.mem_singleton] at h
          rw [h]
          exact List.sorted_insertionSort idLe cb
      exact ih (cb.foldl (fun s t => insert t.id s) completed)
        (batches ++ [cb.insertionSort idLe]) _ rfl hperm' hmemc' harith' horder' hsorted'

end DepRes

namespace DepRes

theorem all_mem_empty_eq_isEmpty (l : List String) :
    (l.all (fun d => decide (d ∈ (∅ : Finset String)))) = l.isEmpty := by
  cases l with
  | nil => rfl
  | cons a t => simp

theorem buildObj_some_exists (tasks : List Task) (k : String) (l : List String)
    (h : buildObj tasks k = some l) : ∃ t ∈ tasks, t.id = k ∧ t.dependencies = l := by
  induction tasks using List.reverseRecOn with
  | nil => cases h
  | append_singleton ts x ih =>
    rw [buildObj_append] at h
    by_cases hk : k = x.id
    · rw [if_pos hk] at h
      injection h with h
      exact ⟨x, List.mem_append.mpr (Or.inr (List.mem_singleton_self x)), hk.symm, h⟩
    · rw [if_neg hk] at h
      obtain ⟨t, ht, h1, h2⟩ := ih h
      exact ⟨t, List.mem_append.mpr (Or.inl ht), h1, h2⟩

theorem validation_ok (tasks : List Task)
    (hvalid : ∀ t ∈ tasks, ∀ d ∈ t.dependencies, d ∈ taskIds tasks) :
    buildDependencyGraph tasks = .ok (buildObj tasks) := by
  have hnone : tasks.findSome? (fun t =>
      ((buildObj tasks t.id).getD []).findSome? (fun d =>
        if hasKey (buildObj tasks) d then none else some (t.id, d))) = none := by
    rw [List.findSome?_eq_none_iff]
    intro t ht
    rw [List.findSome?_eq_none_iff]
    intro d hd
    have hdids : d ∈ taskIds tasks := by
      cases hg : buildObj tasks t.id with
      | none =>
        rw [hg] at hd
        cases hd
      | some l =>
        rw [hg, Option.getD_some] at hd
        obtain ⟨t', ht', _, hdeps⟩ := buildObj_some_exists tasks t.id l hg
        exact hvalid t' ht' d (hdeps ▸ hd)
    have hk : hasKey (buildObj tasks) d = true := by
      unfold hasKey
      exact (buildObj_isSome_iff tasks d).mpr hdids
    simp [hk]
  unfold buildDependencyGraph
  rw [hnone]

theorem depsOfTask_eq_nil_of_noDeps (g : String → Option (List String)) (t : Task)
    (h : noDeps g t = true) : depsOfTask g t.id = [] := by
  unfold noDeps at h
  unfold depsOfTask
  cases hg : g t.id with
  | none => rfl
  | some l =>
    rw [hg] at h
    rw [Option.getD_some, List.isEmpty_iff.mp h]

end DepRes

/-- Two distinct tasks sharing one id: the claim admits this input (its
dependency ids all resolve and its graph is acyclic), but the resolver
rejects it. -/
def dupTasks : List DepRes.Task :=
  [{ id := "alpha", dependencies := [] }, { id := "alpha", dependencies := [] }]

/-- Claim C1, counterexample: a task list whose dependency ids all refer to
tasks in the list and whose dependency graph is acyclic, on which
resolveBatches nevertheless throws the circular-dependency error instead of
returning a partition into batches — two tasks share the id alpha, so the
completed id set can never reach the task count. -/
theorem c1_counterexample :
    (∀ t ∈ dupTasks, ∀ d ∈ t.dependencies, d ∈ DepRes.taskIds dupTasks) ∧
    DepRes.Acyclic (DepRes.buildObj dupTasks) ∧
    DepRes.buildDependencyGraph dupTasks = .ok (DepRes.buildObj dupTasks) ∧
    DepRes.resolveBatches dupTasks (DepRes.buildObj dupTasks) =
      .error (.cyclic []) := by
  refine ⟨by decide, ?_, ?_, ?_⟩
  · apply DepRes.acyclic_of_no_rel
    intro a b hrel
    unfold DepRes.Rel DepRes.depsOfTask at hrel
    by_cases ha : a = "alpha"
    · have hob : DepRes.buildObj dupTasks a = some [] := by
        rw [ha]
        rfl
      rw [hob] at hrel
      cases hrel
    · have hob : DepRes.buildObj dupTasks a = none := by
        show (if a = "alpha" then some [] else
          if a = "alpha" then some [] else none) = none
        rw [if_neg ha, if_neg ha]
      rw [hob] at hrel
      cases hrel
  · rfl
  · rfl

/-- Claim C1, amended: for every list of tasks with pairwise distinct ids
whose dependency ids all refer to tasks in the list and whose dependency
graph is acyclic, the resolver returns batches that partition the input
(the flattened batches are a permutation of the tasks), every prerequisite
of a task in batch i lies in some batch j < i, and each batch is sorted by
id under the code-point lexicographic order of the comparator. -/
theorem c1_batches_partition (tasks : List DepRes.Task)
    (hnd : (DepRes.taskIds tasks).Nodup)
    (hvalid : ∀ t ∈ tasks, ∀ d ∈ t.dependencies, d ∈ DepRes.taskIds tasks)
    (hacyc : DepRes.Acyclic (DepRes.buildObj tasks)) :
    ∃ batches : List (List DepRes.Task),
      DepRes.buildDependencyGraph tasks = .ok (DepRes.buildObj tasks) ∧
      DepRes.resolveBatches tasks (DepRes.buildObj tasks) = .ok batches ∧
      batches.flatten.Perm tasks ∧
      (∀ (i : Nat) (b : List DepRes.Task), batches[i]? = some b →
        ∀ t ∈ b, ∀ d ∈ t.dependencies,
        ∃ (j : Nat) (b' : List DepRes.Task), j < i ∧ batches[j]? = some b' ∧
          d ∈ b'.map DepRes.Task.id) ∧
      (∀ b ∈ batches, b.Pairwise DepRes.idLe) := by
  have hg : ∀ t ∈ tasks, DepRes.buildObj tasks t.id = some t.dependencies :=
    fun t ht => DepRes.buildObj_of_nodup tasks hnd t ht
  have hdeps_eq : ∀ t ∈ tasks,
      DepRes.depsOfTask (DepRes.buildObj tasks) t.id = t.dependencies := by
    intro t ht
    unfold DepRes.depsOfTask
    rw [hg t ht, Option.getD_some]
  have hvalid' : ∀ t ∈ tasks,
      ∀ d ∈ DepRes.depsOfTask (DepRes.buildObj tasks) t.id,
      d ∈ DepRes.taskIds tasks := by
    intro t ht d hd
    rw [hdeps_eq t ht] at hd
    exact hvalid t ht d hd
  have hcb0 : tasks.filter (fun t => DepRes.noDeps (DepRes.buildObj tasks) t) =
      tasks.filter (fun t => !(decide (t.id ∈ (∅ : Finset String))) &&
        (DepRes.depsOfTask (DepRes.buildObj tasks) t.id).all
          (fun d => decide (d ∈ (∅ : Finset String)))) := by
    apply List.filter_congr
    intro t ht
    have h1 : DepRes.noDeps (DepRes.buildObj tasks) t = t.dependencies.isEmpty := by
      unfold DepRes.noDeps
      rw [hg t ht]
    rw [h1, hdeps_eq t ht, DepRes.all_mem_empty_eq_isEmpty]
    simp
  have main := DepRes.resolveLoop_correct tasks (DepRes.buildObj tasks) hnd hvalid' hacyc
    (tasks.length + 1) ∅ []
    (tasks.filter (fun t => DepRes.noDeps (DepRes.buildObj tasks) t))
    hcb0
    (by
      have hf : tasks.filter (fun t => decide (t.id ∈ (∅ : Finset String))) = [] :=
        List.filter_eq_nil_iff.mpr (by intro t _; simp)
      rw [hf]
      simp)
    (by intro x hx; exact absurd hx (Finset.not_mem_empty x))
    (by simp)
    (by intro i b h; simp at h)
    (by intro b hb; cases hb)
  obtain ⟨hcard, hpermt, horder, hsorted⟩ := main
  refine ⟨(DepRes.resolveLoop tasks (DepRes.buildObj tasks) (tasks.length + 1) ∅ []
      (tasks.filter (fun t => DepRes.noDeps (DepRes.buildObj tasks) t))).1,
    DepRes.validation_ok tasks hvalid, ?_, hpermt, ?_, hsorted⟩
  · unfold DepRes.resolveBatches
    rcases hR : DepRes.resolveLoop tasks (DepRes.buildObj tasks) (tasks.length + 1) ∅ []
        (tasks.filter (fun t => DepRes.noDeps (DepRes.buildObj tasks) t)) with ⟨bs, c⟩
    rw [hR] at hcard
    dsimp only
    dsimp only at hcard
    rw [if_pos hcard]
  · intro i b hib t htb d hd
    have htt : t ∈ tasks := by
      apply hpermt.mem_iff.mp
      exact List.mem_flatten.mpr ⟨b, List.getElem?_mem hib, htb⟩
    apply horder i b hib t htb d
    rw [hdeps_eq t htt]
    exact hd

/-- Acyclic three-task input used as the concrete instance of the amended
claim C1. -/
def wTasks : List DepRes.Task :=
  [{ id := "b", dependencies := ["a"] },
   { id := "a", dependencies := [] },
   { id := "c", dependencies := ["a", "b"] }]

/-- Witness for the amended claim C1 at a concrete acyclic input. -/
theorem c1_witness :
    ∃ batches : List (List DepRes.Task),
      DepRes.buildDependencyGraph wTasks = .ok (DepRes.buildObj wTasks) ∧
      DepRes.resolveBatches wTasks (DepRes.buildObj wTasks) = .ok batches ∧
      batches.flatten.Perm wTasks ∧
      (∀ (i : Nat) (b : List DepRes.Task), batches[i]? = some b →
        ∀ t ∈ b, ∀ d ∈ t.dependencies,
        ∃ (j : Nat) (b' : List DepRes.Task), j < i ∧ batches[j]? = some b' ∧
          d ∈ b'.map DepRes.Task.id) ∧
      (∀ b ∈ batches, b.Pairwise DepRes.idLe) :=
  c1_batches_partition wTasks (by decide) (by decide) (by
    apply DepRes.acyclic_of_rank _
      (fun s => if s = "b" then 1 else if s = "c" then 2 else 0)
    intro a b hrel
    unfold DepRes.Rel DepRes.depsOfTask at hrel
    have hob : DepRes.buildObj wTasks a =
        if a = "c" then some ["a", "b"]
        else if a = "a" then some []
        else if a = "b" then some ["a"] else none := rfl
    rw [hob] at hrel
    by_cases hc : a = "c"
    · subst hc
      rw [if_pos rfl, Option.getD_some] at hrel
      rcases List.mem_pair.mp hrel with rfl | rfl <;> decide
    · rw [if_neg hc] at hrel
      by_cases hA : a = "a"
      · subst hA
        rw [if_pos rfl, Option.getD_some] at hrel
        cases hrel
      · rw [if_neg hA] at hrel
        by_cases hb : a = "b"
        · subst hb
          rw [if_pos rfl, Option.getD_some] at hrel
          rw [List.mem_singleton] at hrel
          subst hrel
          decide
        · rw [if_neg hb] at hrel
          cases hrel)

/-- Claim C7: with distinct task ids, a task listing a prerequisite id that
is not in the input list makes buildDependencyGraph throw the
invalid-dependency error (naming an unknown prerequisite); and a dependency
graph containing a directed cycle makes resolveBatches throw the
circular-dependency error and return no batches, the validation itself
passing. -/
theorem c7_resolver_errors :
    (∀ (tasks : List DepRes.Task) (t0 : DepRes.Task) (d0 : String),
      (DepRes.taskIds tasks).Nodup → t0 ∈ tasks → d0 ∈ t0.dependencies →
      d0 ∉ DepRes.taskIds tasks →
      ∃ a b, DepRes.buildDependencyGraph tasks = .error (.invalidDependency a b) ∧
        b ∉ DepRes.taskIds tasks) ∧
    (∀ tasks : List DepRes.Task,
      (∀ t ∈ tasks, ∀ d ∈ t.dependencies, d ∈ DepRes.taskIds tasks) →
      (∃ x, Relation.TransGen (DepRes.Rel (DepRes.buildObj tasks)) x x) →
      DepRes.buildDependencyGraph tasks = .ok (DepRes.buildObj tasks) ∧
      ∃ missing, DepRes.resolveBatches tasks (DepRes.buildObj tasks) =
        .error (.cyclic missing)) := by
  constructor
  · intro tasks t0 d0 hnd ht0 hd0 hd0n
    have hg := DepRes.buildObj_of_nodup tasks hnd
    cases hout : tasks.findSome? (fun t =>
        ((DepRes.buildObj tasks t.id).getD []).findSome? (fun d =>
          if DepRes.hasKey (DepRes.buildObj tasks) d then none else some (t.id, d))) with
    | none =>
      exfalso
      have hFt0 := List.findSome?_eq_none_iff.mp hout t0 ht0
      rw [hg t0 ht0, Option.getD_some] at hFt0
      have hd0if := List.findSome?_eq_none_iff.mp hFt0 d0 hd0
      have hk : DepRes.hasKey (DepRes.buildObj tasks) d0 = false := by
        cases hhk : DepRes.hasKey (DepRes.buildObj tasks) d0 with
        | false => rfl
        | true =>
          unfold DepRes.hasKey at hhk
          exact absurd ((DepRes.buildObj_isSome_iff tasks d0).mp hhk) hd0n
      rw [hk] at hd0if
      simp at hd0if
    | some bad =>
      obtain ⟨t, ht, hFt⟩ := List.exists_of_findSome?_eq_some hout
      obtain ⟨d, hd, hdif⟩ := List.exists_of_findSome?_eq_some hFt
      have hk : DepRes.hasKey (DepRes.buildObj tasks) d = false := by
        cases hhk : DepRes.hasKey (DepRes.buildObj tasks) d with
        | false => rfl
        | true =>
          rw [hhk] at hdif
          simp at hdif
      rw [hk] at hdif
      simp at hdif
      refine ⟨bad.1, bad.2, ?_, ?_⟩
      · unfold DepRes.buildDependencyGraph
        rw [hout]
      · rw [← hdif]
        intro hmem
        unfold DepRes.hasKey at hk
        rw [(DepRes.buildObj_isSome_iff tasks d).mpr hmem] at hk
        cases hk
  · rintro tasks hvalid ⟨x, hx⟩
    refine ⟨DepRes.validation_ok tasks hvalid, ?_⟩
    have hxid : x ∈ DepRes.taskIds tasks := by
      obtain ⟨b, hb, _⟩ := DepRes.transGen_head_decomp hx
      have hkx := DepRes.rel_mem_keys hb
      unfold DepRes.hasKey at hkx
      exact (DepRes.buildObj_isSome_iff tasks x).mp hkx
    have hloop := DepRes.resolveLoop_no_cycle_completed tasks (DepRes.buildObj tasks)
      (tasks.length + 1) ∅ []
      (tasks.filter (fun t => DepRes.noDeps (DepRes.buildObj tasks) t))
      (fun t ht => (List.mem_filter.mp ht).1)
      (by
        intro t ht d hdd
        have hnod := (List.mem_filter.mp ht).2
        rw [DepRes.depsOfTask_eq_nil_of_noDeps (DepRes.buildObj tasks) t hnod] at hdd
        cases hdd)
      (by intro y hy; exact absurd hy (Finset.not_mem_empty y))
      (by intro y hy; exact absurd hy (Finset.not_mem_empty y))
    obtain ⟨hmem, hnocyc⟩ := hloop
    have hxnc : x ∉ (DepRes.resolveLoop tasks (DepRes.buildObj tasks) (tasks.length + 1)
        ∅ [] (tasks.filter (fun t => DepRes.noDeps (DepRes.buildObj tasks) t))).2 :=
      fun hc => hnocyc x hc hx
    have hlt : (DepRes.resolveLoop tasks (DepRes.buildObj tasks) (tasks.length + 1)
        ∅ [] (tasks.filter (fun t => DepRes.noDeps (DepRes.buildObj tasks) t))).2.card <
        tasks.length := by
      have hsub : (DepRes.resolveLoop tasks (DepRes.buildObj tasks) (tasks.length + 1)
          ∅ [] (tasks.filter (fun t => DepRes.noDeps (DepRes.buildObj tasks) t))).2 ⊆
          (DepRes.taskIds tasks).toFinset :=
        fun y hy => List.mem_toFinset.mpr (hmem y hy)
      have hss : (DepRes.resolveLoop tasks (DepRes.buildObj tasks) (tasks.length + 1)
          ∅ [] (tasks.filter (fun t => DepRes.noDeps (DepRes.buildObj tasks) t))).2 ⊂
          (DepRes.taskIds tasks).toFinset := by
        rw [Finset.ssubset_iff_of_subset hsub]
        exact ⟨x, List.mem_toFinset.mpr hxid, hxnc⟩
      have h1 := Finset.card_lt_card hss
      have h2 : (DepRes.taskIds tasks).toFinset.card ≤ tasks.length := by
        calc (DepRes.taskIds tasks).toFinset.card ≤ (DepRes.taskIds tasks).length :=
            (DepRes.taskIds tasks).toFinset_card_le
          _ = tasks.length := by unfold DepRes.taskIds; rw [List.length_map]
      omega
    unfold DepRes.resolveBatches
    rcases hR : DepRes.resolveLoop tasks (DepRes.buildObj tasks) (tasks.length + 1) ∅ []
        (tasks.filter (fun t => DepRes.noDeps (DepRes.buildObj tasks) t)) with ⟨bs, c⟩
    rw [hR] at hlt
    dsimp only
    dsimp only at hlt
    rw [if_neg (by omega)]
    exact ⟨_, rfl⟩

/-- Witness for claim C7: a singleton task listing an unknown prerequisite
yields the invalid-dependency error, and a two-task cycle yields the
circular-dependency error with no batches. -/
theorem c7_witness :
    (∃ a b, DepRes.buildDependencyGraph
        [{ id := "a", dependencies := ["zzz"] }] = .error (.invalidDependency a b) ∧
      b ∉ DepRes.taskIds [{ id := "a", dependencies := ["zzz"] }]) ∧
    (DepRes.buildDependencyGraph
        [{ id := "p", dependencies := ["q"] }, { id := "q", dependencies := ["p"] }] =
      .ok (DepRes.buildObj
        [{ id := "p", dependencies := ["q"] }, { id := "q", dependencies := ["p"] }]) ∧
     ∃ missing, DepRes.resolveBatches
        [{ id := "p", dependencies := ["q"] }, { id := "q", dependencies := ["p"] }]
        (DepRes.buildObj
          [{ id := "p", dependencies := ["q"] }, { id := "q", dependencies := ["p"] }]) =
        .error (.cyclic missing)) :=
  ⟨c7_resolver_errors.1 [{ id := "a", dependencies := ["zzz"] }]
      { id := "a", dependencies := ["zzz"] } "zzz"
      (by decide) (List.mem_singleton_self _) (List.mem_singleton_self _) (by decide),
   c7_resolver_errors.2
      [{ id := "p", dependencies := ["q"] }, { id := "q", dependencies := ["p"] }]
      (by decide)
      ⟨"p", by
        have h1 : DepRes.Rel (DepRes.buildObj
            [{ id := "p", dependencies := ["q"] }, { id := "q", dependencies := ["p"] }])
            "p" "q" := by unfold DepRes.Rel; decide
        have h2 : DepRes.Rel (DepRes.buildObj
            [{ id := "p", dependencies := ["q"] }, { id := "q", dependencies := ["p"] }])
            "q" "p" := by unfold DepRes.Rel; decide
        exact (Relation.TransGen.single h1).tail h2⟩⟩

/-! ## Issue Body Composer (IssueBodyManager)

Embedded from IssueBodyManager.build and updateStatusTable.  build
concatenates the orchestration block between the fixed start and end
markers; updateStatusTable locates the live-status-table heading and the
end marker by first occurrence (JS indexOf) and splices the new table in
by substring surgery, which is modelled on the character list of the body.
The plan section numbers tasks against their sub-tickets pairwise (the
source indexes the issue array by the task position; the zip agrees with it
whenever the two lists have equal length, which build's callers guarantee).
-/

namespace IssueBody

structure SpecDoc where
  requirements : List String
  acceptance_criteria : List String
  technical_approach : String
  edge_cases : Option (List String)
  dependencies : Option (List String)
  estimated_complexity : String

structure PlanTask where
  title : String
  estimated_complexity : String
  type : String

structure PlanIssue where
  issueNumber : Nat

structure Plan where
  approved : Bool
  implementationTasks : List PlanTask
  implementationIssues : List PlanIssue
  testTasks : List PlanTask
  testIssues : List PlanIssue

def edgeCasesText (spec : SpecDoc) : String :=
  match spec.edge_cases with
  | none => "None specified"
  | some l =>
    if String.intercalate "\n" (l.map (fun e => "- " ++ e)) = "" then "None specified"
    else String.intercalate "\n" (l.map (fun e => "- " ++ e))

def dependenciesText (spec : SpecDoc) : String :=
  match spec.dependencies with
  | none => "None"
  | some l =>
    if String.intercalate "\n" (l.map (fun d => "- " ++ d)) = "" then "None"
    else String.intercalate "\n" (l.map (fun d => "- " ++ d))

def buildSpecSection (spec : SpecDoc) : String :=
  "## 📋 Technical Specification\n\n### Requirements\n" ++
  String.intercalate "\n" (spec.requirements.map (fun r => "- " ++ r)) ++
  "\n\n### Acceptance Criteria\n" ++
  String.intercalate "\n" (spec.acceptance_criteria.map (fun c => "- " ++ c)) ++
  "\n\n### Technical Approach\n" ++ spec.technical_approach ++
  "\n\n### Edge Cases\n" ++ edgeCasesText spec ++
  "\n\n### Dependencies\n" ++ dependenciesText spec ++
  "\n\n### Estimated Complexity\n**" ++ spec.estimated_complexity ++ "**"

/-- JS String.prototype.split on the newline character, at character level. -/
def splitNl (s : String) : List String :=
  (s.data.splitOn '\n').map (fun cs => String.mk cs)

def buildOriginalRequestSection (originalRequest : String) : String :=
  "> **📌 Original Request**\n> \n" ++
  String.intercalate "\n" ((splitNl originalRequest).map (fun line => "> " ++ line))

def buildPlanSection (plan : Plan) : String :=
  "## 📊 Implementation Plan\n\n" ++
  "The planning phase has completed. Status: **" ++
  (if plan.approved then "✅ Approved" else "⏳ Awaiting Approval") ++ "**\n\n" ++
  (if plan.approved then ""
   else "Add label `oc-ralph:approved` to proceed with implementation.\n\n") ++
  "### Implementation Tasks (" ++ toString plan.implementationTasks.length ++ ")\n" ++
  String.join (((plan.implementationTasks.zip plan.implementationIssues).enum).map
    (fun p => toString (p.1 + 1) ++ ". **" ++ p.2.1.title ++ "** (#" ++
      toString p.2.2.issueNumber ++ ") - " ++ p.2.1.estimated_complexity ++
      " complexity\n")) ++
  "\n### Test Tasks (" ++ toString plan.testTasks.length ++ ")\n" ++
  String.join (((plan.testTasks.zip plan.testIssues).enum).map
    (fun p => toString (p.1 + 1) ++ ". **" ++ p.2.1.title ++ "** (#" ++
      toString p.2.2.issueNumber ++ ") - " ++ p.2.1.type ++ "\n"))

/-- The body content between the start and end markers. -/
def buildCore (spec : Option SpecDoc) (plan : Option Plan) (originalRequest : String)
    (statusTable : String) (planningStatus : String) : String :=
  "\n# 🤖 oc-ralph Orchestration\n\n" ++
  (match spec with
   | some sp => buildSpecSection sp
   | none => "") ++
  (if originalRequest ≠ "" then "\n---\n\n" ++ buildOriginalRequestSection originalRequest
   else "") ++
  (match plan with
   | some p => "\n---\n\n" ++ buildPlanSection p
   | none => "") ++
  (if statusTable ≠ "" ∨ planningStatus ≠ "" then "\n---\n\n" ++ statusTable else "") ++
  "\n"

/-- build: the orchestration block delimited by the marker pair. -/
def build (spec : Option SpecDoc) (plan : Option Plan) (originalRequest : String)
    (statusTable : String) (planningStatus : String) : String :=
  "<!-- oc-ralph-orchestration-start -->" ++
  buildCore spec plan originalRequest statusTable planningStatus ++
  "<!-- oc-ralph-orchestration-end -->"

def orchStart : List Char := "<!-- oc-ralph-orchestration-start -->".data

def orchEnd : List Char := "<!-- oc-ralph-orchestration-end -->".data

def liveTableHeading : List Char := "## 📈 Live Status Table".data

/-- updateStatusTable on the character list of the body: replace from the
live-table heading (or insert before the end marker, or append) up to the
end marker; the final case mirrors the JS substring behaviour with a -1
index, where substring(0, -1) is empty-based and substring(-1) is the whole
string. -/
def updateStatusTable (currentBody : List Char) (newStatusTable : List Char) : List Char :=
  match findSub liveTableHeading currentBody with
  | none =>
    match findSub orchEnd currentBody with
    | none => currentBody ++ ('\n' :: '\n' :: []) ++ newStatusTable
    | some e => currentBody.take e ++ ('\n' :: []) ++ newStatusTable ++
        ('\n' :: '\n' :: []) ++ currentBody.drop e
  | some st =>
    match findSub orchEnd currentBody with
    | none => currentBody.take st ++ newStatusTable ++ ('\n' :: '\n' :: []) ++ currentBody
    | some e => currentBody.take st ++ newStatusTable ++ ('\n' :: '\n' :: []) ++
        currentBody.drop e

/-- The bytes before the (first) start marker, when the marker is present. -/
def beforeStart (b : List Char) : Option (List Char) :=
  (findSub orchStart b).map (fun i => b.take i)

/-- The bytes after the (first) end marker, when the marker is present. -/
def afterEnd (b : List Char) : Option (List Char) :=
  (findSub orchEnd b).map (fun i => b.drop (i + orchEnd.length))

end IssueBody

theorem findSub_some_isPrefixOf (pat : List Char) :
    ∀ (s : List Char) (i : Nat), findSub pat s = some i →
      pat.isPrefixOf (s.drop i) = true := by
  intro s
  induction s with
  | nil =>
    intro i h
    unfold findSub at h
    by_cases hp : pat.isEmpty
    · rw [if_pos hp] at h
      injection h with h
      rw [List.isEmpty_iff.mp hp, List.drop_nil]
      rfl
    · rw [if_neg hp] at h
      cases h
  | cons c t ih =>
    intro i h
    rw [findSub] at h
    by_cases hp : pat.isPrefixOf (c :: t) = true
    · rw [if_pos hp] at h
      injection h with h
      rw [← h]
      exact hp
    · rw [if_neg hp] at h
      cases hfs : findSub pat t with
      | none => rw [hfs] at h; cases h
      | some j =>
        rw [hfs] at h
        injection h with h
        rw [← h]
        exact ih j hfs

theorem findSub_append_of_head_not_mem (pat : List Char) (c0 : Char) (pt : List Char)
    (hpat : pat = c0 :: pt) :
    ∀ (pre rest : List Char), c0 ∉ pre →
      findSub pat (pre ++ rest) = (findSub pat rest).map (· + pre.length) := by
  intro pre
  induction pre with
  | nil =>
    intro rest _
    cases h : findSub pat rest <;> simp [h]
  | cons p ps ih =>
    intro rest hpre
    have hne : ¬ pat.isPrefixOf (p :: (ps ++ rest)) = true := by
      rw [hpat]
      intro h
      simp [List.isPrefixOf] at h
      exact (hpre (h.1 ▸ List.mem_cons_self p ps)).elim
    rw [List.cons_append, findSub, if_neg hne,
      ih rest (fun hm => hpre (List.mem_cons_of_mem p hm))]
    cases findSub pat rest <;> simp [Nat.add_assoc]

theorem isPrefixOf_append_left_eq (pat : List Char) :
    ∀ (a b : List Char), pat.length ≤ a.length →
      pat.isPrefixOf (a ++ b) = pat.isPrefixOf a := by
  induction pat with
  | nil => intro a b _; simp [List.isPrefixOf]
  | cons c ct ih =>
    intro a b hlen
    cases a with
    | nil => simp at hlen
    | cons x xs =>
      show (c :: ct).isPrefixOf (x :: (xs ++ b)) = (c :: ct).isPrefixOf (x :: xs)
      simp only [List.isPrefixOf]
      rw [ih xs b (by simpa using hlen)]

theorem findSub_self_of_ne_nil (pat : List Char) (h : pat ≠ []) :
    findSub pat pat = some 0 := by
  cases pat with
  | nil => exact absurd rfl h
  | cons c t =>
    rw [findSub, if_pos]
    rw [List.isPrefixOf_iff_prefix]

namespace IssueBody

theorem orchStart_eq_cons :
    orchStart = '<' :: "!-- oc-ralph-orchestration-start -->".data := rfl

theorem findSub_orchStart_of_construction (x : List Char) :
    findSub orchStart (orchStart ++ x) = some 0 := by
  rw [orchStart_eq_cons, List.cons_append, findSub, if_pos]
  rw [← List.cons_append, ← orchStart_eq_cons, List.isPrefixOf_iff_prefix]
  exact List.prefix_append orchStart x

theorem findSub_orchEnd_of_clean (mid : List Char) (hm : ('<' : Char) ∉ mid) :
    findSub orchEnd (orchStart ++ mid ++ orchEnd) =
      some (orchStart.length + mid.length) := by
  have hshape : orchStart ++ mid ++ orchEnd =
      '<' :: (("!-- oc-ralph-orchestration-start -->".data ++ mid) ++ orchEnd) := by
    rw [orchStart_eq_cons]
    simp [List.append_assoc]
  rw [hshape, findSub]
  have hnotp : ¬ orchEnd.isPrefixOf
      ('<' :: (("!-- oc-ralph-orchestration-start -->".data ++ mid) ++ orchEnd)) = true := by
    rw [← List.cons_append, ← List.cons_append, ← orchStart_eq_cons, List.append_assoc,
      isPrefixOf_append_left_eq orchEnd orchStart (mid ++ orchEnd) (by decide)]
    decide
  rw [if_neg hnotp]
  rw [findSub_append_of_head_not_mem orchEnd '<'
    "!-- oc-ralph-orchestration-end -->".data rfl
    ("!-- oc-ralph-orchestration-start -->".data ++ mid) orchEnd
    (by
      intro hmem
      rcases List.mem_append.mp hmem with h | h
      · revert h
        decide
      · exact hm h)]
  rw [findSub_self_of_ne_nil orchEnd (by decide)]
  simp only [Option.map_some', List.length_append]
  congr 1
  rw [orchStart_eq_cons]
  simp only [List.length_cons]
  omega

theorem heading_pos_lower (mid : List Char) (st : Nat)
    (hH : findSub liveTableHeading (orchStart ++ mid ++ orchEnd) = some st) :
    orchStart.length ≤ st := by
  by_contra hlt
  push_neg at hlt
  have hpre := findSub_some_isPrefixOf liveTableHeading _ st hH
  rw [show orchStart ++ mid ++ orchEnd = orchStart ++ (mid ++ orchEnd) from by
    simp [List.append_assoc]] at hpre
  rw [List.drop_append_eq_append_drop] at hpre
  cases hdr : orchStart.drop st with
  | nil =>
    rw [List.drop_eq_nil_iff] at hdr
    omega
  | cons d dt =>
    rw [hdr, List.cons_append] at hpre
    have hhd : liveTableHeading = '#' :: "# 📈 Live Status Table".data := rfl
    rw [hhd] at hpre
    simp [List.isPrefixOf] at hpre
    have hdmem : d ∈ orchStart := List.drop_subset st orchStart (hdr ▸ List.mem_cons_self d dt)
    rw [← hpre.1] at hdmem
    revert hdmem
    decide

theorem heading_pos_upper (mid : List Char) (st : Nat)
    (hH : findSub liveTableHeading (orchStart ++ mid ++ orchEnd) = some st) :
    st ≤ orchStart.length + mid.length := by
  by_contra hgt
  push_neg at hgt
  have hpre := findSub_some_isPrefixOf liveTableHeading _ st hH
  rw [List.drop_append_eq_append_drop] at hpre
  have hnil : (orchStart ++ mid).drop st = [] := by
    rw [List.drop_eq_nil_iff, List.length_append]
    omega
  rw [hnil, List.nil_append] at hpre
  have hhd : liveTableHeading = '#' :: "# 📈 Live Status Table".data := rfl
  cases hdr : orchEnd.drop (st - (orchStart ++ mid).length) with
  | nil =>
    rw [hdr, hhd] at hpre
    cases hpre
  | cons d dt =>
    rw [hdr, hhd] at hpre
    simp [List.isPrefixOf] at hpre
    have hdmem : d ∈ orchEnd :=
      List.drop_subset _ orchEnd (hdr ▸ List.mem_cons_self d dt)
    rw [← hpre.1] at hdmem
    revert hdmem
    decide

end IssueBody

namespace IssueBody

theorem updateStatusTable_shape (mid S : List Char) (hm : ('<' : Char) ∉ mid)
    (hS : ('<' : Char) ∉ S) :
    ∃ mid', updateStatusTable (orchStart ++ mid ++ orchEnd) S =
      orchStart ++ mid' ++ orchEnd ∧ ('<' : Char) ∉ mid' := by
  have hEM := findSub_orchEnd_of_clean mid hm
  have hdrop : (orchStart ++ mid ++ orchEnd).drop (orchStart.length + mid.length) =
      orchEnd := List.drop_left' (by simp)
  unfold updateStatusTable
  cases hH : findSub liveTableHeading (orchStart ++ mid ++ orchEnd) with
  | none =>
    rw [hEM]
    dsimp only
    refine ⟨mid ++ ('\n' :: []) ++ S ++ ('\n' :: '\n' :: []), ?_, ?_⟩
    · have htake : (orchStart ++ mid ++ orchEnd).take (orchStart.length + mid.length) =
          orchStart ++ mid := List.take_left' (by simp)
      rw [htake, hdrop]
      simp [List.append_assoc]
    · intro hmem
      rcases List.mem_append.mp hmem with h1 | h1
      · rcases List.mem_append.mp h1 with h2 | h2
        · rcases List.mem_append.mp h2 with h3 | h3
          · exact hm h3
          · revert h3
            decide
        · exact hS h2
      · revert h1
        decide
  | some st =>
    rw [hEM]
    dsimp only
    have hlo := heading_pos_lower mid st hH
    have hhi := heading_pos_upper mid st hH
    refine ⟨(mid.take (st - orchStart.length)) ++ S ++ ('\n' :: '\n' :: []), ?_, ?_⟩
    · have htake : (orchStart ++ mid ++ orchEnd).take st =
          orchStart ++ mid.take (st - orchStart.length) := by
        rw [List.append_assoc, List.take_append_eq_append_take,
          List.take_of_length_le hlo]
        congr 1
        rw [List.take_append_eq_append_take,
          show st - orchStart.length - mid.length = 0 from by omega,
          List.take_zero, List.append_nil]
      rw [htake, hdrop]
      simp [List.append_assoc]
    · intro hmem
      rcases List.mem_append.mp hmem with h1 | h1
      · rcases List.mem_append.mp h1 with h2 | h2
        · exact hm (List.take_subset _ mid h2)
        · exact hS h2
      · revert h1
        decide

theorem marker_frame (mid : List Char) (hm : ('<' : Char) ∉ mid) :
    beforeStart (orchStart ++ mid ++ orchEnd) = some [] ∧
    afterEnd (orchStart ++ mid ++ orchEnd) = some [] := by
  constructor
  · unfold beforeStart
    rw [List.append_assoc, findSub_orchStart_of_construction]
    simp
  · unfold afterEnd
    rw [findSub_orchEnd_of_clean mid hm]
    simp only [Option.map_some']
    congr 1
    rw [show orchStart.length + mid.length + orchEnd.length =
      ((orchStart ++ mid) ++ orchEnd).length from by
        simp only [List.length_append]]
    exact List.drop_length _

end IssueBody

/-- Claim C5: for any specification, plan, original request and status-table
arguments whose rendered orchestration content contains no marker-opening
character, and any new status table S with the same property, updating the
built body's status table leaves the regions outside the orchestration
start/end marker pair byte-identical (both are empty, before and after the
update), the update only rewriting content between the markers. -/
theorem c5_updateStatusTable_frame (spec : Option IssueBody.SpecDoc)
    (plan : Option IssueBody.Plan)
    (originalRequest statusTable planningStatus S : String)
    (hclean : ('<' : Char) ∉
      (IssueBody.buildCore spec plan originalRequest statusTable planningStatus).data)
    (hS : ('<' : Char) ∉ S.data) :
    IssueBody.beforeStart
      ((IssueBody.build spec plan originalRequest statusTable planningStatus).data) =
      some [] ∧
    IssueBody.afterEnd
      ((IssueBody.build spec plan originalRequest statusTable planningStatus).data) =
      some [] ∧
    IssueBody.beforeStart (IssueBody.updateStatusTable
      ((IssueBody.build spec plan originalRequest statusTable planningStatus).data)
      S.data) = some [] ∧
    IssueBody.afterEnd (IssueBody.updateStatusTable
      ((IssueBody.build spec plan originalRequest statusTable planningStatus).data)
      S.data) = some [] := by
  have hbody : (IssueBody.build spec plan originalRequest statusTable planningStatus).data =
      IssueBody.orchStart ++
      (IssueBody.buildCore spec plan originalRequest statusTable planningStatus).data ++
      IssueBody.orchEnd := by
    unfold IssueBody.build
    rw [String.data_append, String.data_append]
    rfl
  obtain ⟨mid', hshape, hm'⟩ := IssueBody.updateStatusTable_shape
    (IssueBody.buildCore spec plan originalRequest statusTable planningStatus).data
    S.data hclean hS
  have h1 := IssueBody.marker_frame
    (IssueBody.buildCore spec plan originalRequest statusTable planningStatus).data hclean
  have h2 := IssueBody.marker_frame mid' hm'
  rw [hbody, hshape]
  exact ⟨h1.1, h1.2, h2.1, h2.2⟩

/-- Witness for claim C5 at a concrete specification, request and table. -/
theorem c5_witness :
    IssueBody.beforeStart (IssueBody.updateStatusTable
      ((IssueBody.build
        (some { requirements := ["parse the config"],
                acceptance_criteria := ["config loads"],
                technical_approach := "read the file",
                edge_cases := none, dependencies := none,
                estimated_complexity := "low" })
        none "please add the feature" "" "planning").data)
      ("## 📈 Live Status Table\n| task | status |".data)) = some [] ∧
    IssueBody.afterEnd (IssueBody.updateStatusTable
      ((IssueBody.build
        (some { requirements := ["parse the config"],
                acceptance_criteria := ["config loads"],
                technical_approach := "read the file",
                edge_cases := none, dependencies := none,
                estimated_complexity := "low" })
        none "please add the feature" "" "planning").data)
      ("## 📈 Live Status Table\n| task | status |".data)) = some [] := by
  have h := c5_updateStatusTable_frame
    (some { requirements := ["parse the config"],
            acceptance_criteria := ["config loads"],
            technical_approach := "read the file",
            edge_cases := none, dependencies := none,
            estimated_complexity := "low" })
    none "please add the feature" "" "planning"
    "## 📈 Live Status Table\n| task | status |"
    (by decide) (by decide)
  exact ⟨h.2.2.1, h.2.2.2⟩

set_option maxRecDepth 16384 in
/-- Claim C5, counterexample: the claim quantifies over any status table S,
but a table containing the end-marker text moves the first end-marker
occurrence of the updated body into the spliced table, so the region after
the end marker — empty in the built body — becomes non-empty after the
update: the bytes outside the marker pair are not left identical. -/
theorem c5_counterexample :
    IssueBody.afterEnd ((IssueBody.build none none "" "" "").data) = some [] ∧
    IssueBody.afterEnd (IssueBody.updateStatusTable
      ((IssueBody.build none none "" "" "").data)
      ("x<!-- oc-ralph-orchestration-end -->y".data)) ≠ some [] := by
  constructor
  · decide
  · decide

/-- Two tasks sharing the id X, the first listing an unknown prerequisite:
the later assignment shadows the earlier dependency list in the graph
object, so validation never examines the unknown id. -/
def shadowTasks : List DepRes.Task :=
  [{ id := "X", dependencies := ["zzz"] }, { id := "X", dependencies := [] }]

/-- Claim C7, counterexample: a task of the input lists the prerequisite zzz
which belongs to no task in the list, yet buildDependencyGraph succeeds
instead of failing with the invalid-dependency error (the duplicate id X
makes the second task's empty dependency list shadow the first in the graph
object), and the run then fails with the circular-dependency error. -/
theorem c7_counterexample :
    ({ id := "X", dependencies := ["zzz"] } : DepRes.Task) ∈ shadowTasks ∧
    "zzz" ∈ ({ id := "X", dependencies := ["zzz"] } : DepRes.Task).dependencies ∧
    "zzz" ∉ DepRes.taskIds shadowTasks ∧
    DepRes.buildDependencyGraph shadowTasks = .ok (DepRes.buildObj shadowTasks) ∧
    DepRes.resolveBatches shadowTasks (DepRes.buildObj shadowTasks) =
      .error (.cyclic []) := by
  refine ⟨by decide, by decide, by decide, rfl, rfl⟩
